import Mathlib

/-!
The HTTP greeter of `main.go` (registry-demo-app)

A shallow embedding of `src/main.go` together with the parts of the Go
standard library that decide its observable behaviour:

* `fmt`    : the format interpreter `doPrintf` behind `Sprintf`, `Fprintf`
             and `log.Printf`;
* `path`   : `Clean`, used by the request multiplexer to canonicalise paths;
* `net/http`: `ServeMux` registration and dispatch, the `ResponseWriter`
             contract (`WriteHeader`, `Write`), `ListenAndServe`;
* `os`, `log`: `Hostname`, `Getenv`, `log.Printf`, `log.Fatal`.

Go strings are modelled by Lean strings, that is, by sequences of Unicode
code points (a Go string holding invalid UTF-8 has no counterpart here).
Two views of an answer are kept apart.  `response` is what a handler hands
to its `ResponseWriter`: the status code and the bytes written, in the
manner of `httptest.ResponseRecorder`.  `sent` is what the server puts on
the connection for it: the same status, and the bytes written as the body
unless the request is a HEAD request, which is answered without a body.
The multiplexer is the one of the current library: it reads the escaped
path of the request, compares segments after percent-decoding and redirects
with status 307.  Time stamps of log lines and response headers are not
part of the model.  The exchanges of a run are taken one after another; the
Go server runs the handlers of different connections side by side, and the
handlers of main.go share nothing that one of them changes.
-/

namespace GoWeb

/-! ## Faults -/

/-- Ways in which a modelled call ends without a result. -/
inductive Fault
  | panic (msg : String)
  | unmodelled
  | fuel
  deriving DecidableEq, Repr

/-! ## Package fmt -/

/-- Formatting state of one verb (`fmt.fmt`).  The flags `+`, `-`, space and
`0` are read by the interpreter but only steer padding and signs, which the
rendering of a string operand without width never consults; they are not
recorded. -/
structure fmtFlags where
  sharp : Bool := false
  sharpV : Bool := false
  widPresent : Bool := false
  precPresent : Bool := false
  deriving DecidableEq, Repr

/-- Printer state (`fmt.pp`): the output buffer and the two status bits of
the operand index logic. -/
structure pp where
  buf : List Char := []
  reordered : Bool := false
  goodArgNum : Bool := true
  fmt : fmtFlags := {}
  deriving DecidableEq, Repr

def pp.writeString (p : pp) (s : String) : pp :=
  { p with buf := p.buf ++ s.data }

def pp.writeRune (p : pp) (c : Char) : pp :=
  { p with buf := p.buf ++ [c] }

def percentBangString : String := "%!"
def missingString : String := "(MISSING)"
def badIndexString : String := "(BADINDEX)"
def extraString : String := "%!(EXTRA "
def badWidthString : String := "%!(BADWIDTH)"
def badPrecString : String := "%!(BADPREC)"
def noVerbString : String := "%!(NOVERB)"
def commaSpaceString : String := ", "

/-- Whether an integer is too large to be a width or precision. -/
def tooLarge (x : Nat) : Bool := decide (x > 1000000)

/-- The digit loop of `parsenum`: on overflow the whole segment is consumed
and no number is reported. -/
def parsenumLoop : List Char → Nat → Bool → Nat × Bool × List Char
  | [], num, isnum => (num, isnum, [])
  | c :: cs, num, isnum =>
    if '0' ≤ c ∧ c ≤ '9' then
      if tooLarge num then (0, false, [])
      else parsenumLoop cs (num * 10 + (c.toNat - '0'.toNat)) true
    else (num, isnum, c :: cs)

/-- `parsenum(s, start, end)` on the segment `s[start:end]`: the number read,
whether one was present, and the unread part of the segment. -/
def parsenum (s : List Char) : Nat × Bool × List Char :=
  parsenumLoop s 0 false

/-- `parseArgNumber` on the text after an opening bracket: the zero-based
index, whether it parsed, and the format left to process. -/
def parseArgNumber (cs : List Char) : Int × Bool × List Char :=
  if cs.length + 1 < 3 then (0, false, cs)
  else
    match cs.span (fun c => c != ']') with
    | (_, []) => (0, false, cs)
    | (inner, _ :: after) =>
      match parsenum inner with
      | (width, ok, rest) =>
        if !ok || !rest.isEmpty then (0, false, after)
        else ((width : Int) - 1, true, after)

/-- `argNumber`: the operand to use next, given an optional `[n]` at the
head of the format. -/
def argNumber (p : pp) (argNum : Nat) (format : List Char) (numArgs : Nat) :
    pp × Nat × List Char × Bool :=
  match format with
  | [] => (p, argNum, format, false)
  | c :: cs =>
    if c = '[' then
      let p := { p with reordered := true }
      match parseArgNumber cs with
      | (index, ok, rest) =>
        if ok && decide (0 ≤ index) && decide (index < (numArgs : Int)) then
          (p, index.toNat, rest, true)
        else ({ p with goodArgNum := false }, argNum, rest, ok)
    else (p, argNum, format, false)

/-- `intFromArg` for string operands: a string is never an integer, but the
operand is consumed. -/
def intFromArg (a : List String) (argNum : Nat) : Nat × Bool × Nat :=
  if argNum < a.length then (0, false, argNum + 1) else (0, false, argNum)

/-- `printArg` for a string operand.  Modelled: the verbs `%s` and `%v`
without width and precision, which write the operand unchanged
(`fmtString`, `fmtS`, `padString`).  Every other rendering (`%q`, `%x`,
`%#v`, `%T`, padding, the bad-verb form) is outside the model. -/
def printArg (p : pp) (arg : String) (verb : Char) : Except Fault pp :=
  if (verb = 's' ∨ (verb = 'v' ∧ p.fmt.sharpV = false))
      ∧ p.fmt.widPresent = false ∧ p.fmt.precPresent = false then
    .ok (p.writeString arg)
  else .error .unmodelled

def pp.badArgNum (p : pp) (verb : Char) : pp :=
  ((p.writeString percentBangString).writeRune verb).writeString badIndexString

def pp.missingArg (p : pp) (verb : Char) : pp :=
  ((p.writeString percentBangString).writeRune verb).writeString missingString

/-- The `%v` adjustment made before an operand is printed: `#` becomes the
Go-syntax flag. -/
def pp.verbFlags (p : pp) (verb : Char) : pp :=
  if verb = 'v' then
    { p with fmt := { p.fmt with sharpV := p.fmt.sharp, sharp := false } }
  else p

/-- The flag loop (`simpleFormat`).  It stops at the first character that
is not a flag; when that character is a lower-case ASCII letter and an
operand is left, the fast path takes it as the verb. -/
def scanFlags (numArgs argNum : Nat) : pp → List Char → pp × List Char × Option Char
  | p, [] => (p, [], none)
  | p, c :: cs =>
    if c = '#' then
      scanFlags numArgs argNum { p with fmt := { p.fmt with sharp := true } } cs
    else if c = '0' ∨ c = '+' ∨ c = '-' ∨ c = ' ' then
      scanFlags numArgs argNum p cs
    else if 'a' ≤ c ∧ c ≤ 'z' ∧ argNum < numArgs then (p, cs, some c)
    else (p, c :: cs, none)

/-- Width of a verb: `*` takes it from an operand, otherwise digits. -/
def parseWidth (a : List String) (p : pp) (argNum : Nat) (format : List Char)
    (afterIndex : Bool) : pp × Nat × List Char × Bool :=
  if format.head? = some '*' then
    match intFromArg a argNum with
    | (_, widPresent, argNum) =>
      let p := { p with fmt := { p.fmt with widPresent := widPresent } }
      (if !widPresent then p.writeString badWidthString else p, argNum, format.tail, false)
  else
    match parsenum format with
    | (_, widPresent, rest) =>
      let p := { p with fmt := { p.fmt with widPresent := widPresent } }
      (if afterIndex && widPresent then { p with goodArgNum := false } else p,
        argNum, rest, afterIndex)

/-- Precision of a verb, introduced by a dot: `*` takes it from an operand,
otherwise digits (none means zero). -/
def parsePrecision (a : List String) (p : pp) (argNum : Nat) (format : List Char)
    (afterIndex : Bool) : pp × Nat × List Char × Bool :=
  if format.head? = some '.' then
    let p := if afterIndex then { p with goodArgNum := false } else p
    match argNumber p argNum format.tail a.length with
    | (p, argNum, rest, afterIndex) =>
      if rest.head? = some '*' then
        match intFromArg a argNum with
        | (_, precPresent, argNum) =>
          let p := { p with fmt := { p.fmt with precPresent := precPresent } }
          (if !precPresent then p.writeString badPrecString else p, argNum, rest.tail, false)
      else
        match parsenum rest with
        | (_, _, rest) =>
          ({ p with fmt := { p.fmt with precPresent := true } }, argNum, rest, afterIndex)
  else (p, argNum, format, afterIndex)

/-- The part of a verb between its flags and the verb character: operand
index, width, precision, operand index. -/
def parseVerb (a : List String) (p : pp) (argNum : Nat) (format : List Char) :
    pp × Nat × List Char :=
  match argNumber p argNum format a.length with
  | (p, argNum, rest, afterIndex) =>
    match parseWidth a p argNum rest afterIndex with
    | (p, argNum, rest, afterIndex) =>
      match parsePrecision a p argNum rest afterIndex with
      | (p, argNum, rest, afterIndex) =>
        if !afterIndex then
          match argNumber p argNum rest a.length with
          | (p, argNum, rest, _) => (p, argNum, rest)
        else (p, argNum, rest)

/-- The format loop of `doPrintf`, one format character or one verb per
step; the fuel bounds the number of steps. -/
def doPrintfLoop (a : List String) : Nat → pp → Nat → List Char → Except Fault (pp × Nat)
  | _, p, argNum, [] => .ok (p, argNum)
  | 0, _, _, _ :: _ => .error .fuel
  | n + 1, p, argNum, c :: cs =>
    if c ≠ '%' then doPrintfLoop a n (p.writeRune c) argNum cs
    else
      -- process one verb
      match scanFlags a.length argNum { p with goodArgNum := true, fmt := {} } cs with
      | (p, rest, some verb) =>
        -- fast path: a simple verb without width, precision or operand index
        match a.get? argNum with
        | none => .error .unmodelled
        | some arg =>
          match printArg (p.verbFlags verb) arg verb with
          | .error e => .error e
          | .ok p => doPrintfLoop a n p (argNum + 1) rest
      | (p, rest, none) =>
        match parseVerb a p argNum rest with
        | (p, argNum, []) => .ok (p.writeString noVerbString, argNum)
        | (p, argNum, verb :: rest) =>
          if verb = '%' then doPrintfLoop a n (p.writeRune '%') argNum rest
          else if !p.goodArgNum then doPrintfLoop a n (p.badArgNum verb) argNum rest
          else
            match a.get? argNum with
            | none => doPrintfLoop a n (p.missingArg verb) argNum rest
            | some arg =>
              match printArg (p.verbFlags verb) arg verb with
              | .error e => .error e
              | .ok p => doPrintfLoop a n p (argNum + 1) rest

/-- The operands left over, as written after `%!(EXTRA `. -/
def writeExtra : pp → List String → Bool → Except Fault pp
  | p, [], _ => .ok p
  | p, arg :: rest, first =>
    let p := if first then p else p.writeString commaSpaceString
    let p := (p.writeString "string").writeRune '='
    match printArg p arg 'v' with
    | .error e => .error e
    | .ok p => writeExtra p rest false

/-- Model of `(*pp).doPrintf` for string operands. -/
def doPrintf (format : String) (a : List String) : Except Fault pp :=
  match doPrintfLoop a format.length {} 0 format.data with
  | .error e => .error e
  | .ok (p, argNum) =>
    if !p.reordered && decide (argNum < a.length) then
      match writeExtra ({ p with fmt := {} }.writeString extraString) (a.drop argNum) true with
      | .error e => .error e
      | .ok p => .ok (p.writeRune ')')
    else .ok p

/-- Model of `fmt.Sprintf`. -/
def Sprintf (format : String) (a : List String) : Except Fault String :=
  match doPrintf format a with
  | .error e => .error e
  | .ok p => .ok ⟨p.buf⟩

/-- Model of `fmt.Fprintf(w, format, a...)`: the formatted text, which is
handed to the writer in a single `Write`. -/
def Fprintf (format : String) (a : List String) : Except Fault String :=
  Sprintf format a

/-! ## Package path -/

/-- The backtracking step of a `..` element on the reversed output buffer:
bytes are dropped from the end until a slash has been dropped or only
`dotdot` bytes are left. -/
def backtrack (dotdot : Nat) : List Char → List Char
  | [] => []
  | c :: rest =>
    if dotdot < rest.length ∧ c ≠ '/' then backtrack dotdot rest else rest

/-- The element loop of `path.Clean`.  The unread part of the path is the
list argument; `out` is the output buffer in reverse order, `dotdot` marks
where backtracking must stop.  Each step consumes at least one byte. -/
def cleanLoop (rooted : Bool) : Nat → List Char → List Char → Nat → List Char
  | 0, _, out, _ => out
  | _ + 1, [], out, _ => out
  | n + 1, c :: cs, out, dotdot =>
    if c = '/' then
      -- empty path element
      cleanLoop rooted n cs out dotdot
    else if c = '.' ∧ (cs = [] ∨ cs.head? = some '/') then
      -- . element
      cleanLoop rooted n cs out dotdot
    else if c = '.' ∧ cs.head? = some '.' ∧ (cs.tail = [] ∨ cs.tail.head? = some '/') then
      -- .. element: remove to last /
      if dotdot < out.length then
        cleanLoop rooted n cs.tail (backtrack dotdot out) dotdot
      else if !rooted then
        let out := if 0 < out.length then '/' :: out else out
        let out := '.' :: '.' :: out
        cleanLoop rooted n cs.tail out out.length
      else cleanLoop rooted n cs.tail out dotdot
    else
      -- real path element: add slash if needed, copy element
      let out :=
        if (rooted && out.length != 1) || (!rooted && out.length != 0) then '/' :: out
        else out
      match (c :: cs).span (fun x => x != '/') with
      | (elem, rest) => cleanLoop rooted n rest (elem.reverse ++ out) dotdot

/-- Model of `path.Clean`. -/
def Clean (path : String) : String :=
  if path = "" then "."
  else
    let rooted := decide (path.data.head? = some '/')
    let out :=
      if rooted then cleanLoop rooted path.length path.data.tail ['/'] 1
      else cleanLoop rooted path.length path.data [] 0
    if out.length = 0 then "." else ⟨out.reverse⟩

/-! ## Package net/http -/

/-- The part of `http.Request` a handler or the multiplexer can look at.
`Path` is the path of the request in the escaped form in which the
multiplexer reads it, `r.URL.EscapedPath()`; for a path without
percent-escapes this is `r.URL.Path` as well. -/
structure Request where
  Method : String := "GET"
  Host : String := ""
  Path : String := "/"
  RequestURI : String := "/"
  RemoteAddr : String := ""
  Header : List (String × String) := []
  Body : String := ""
  deriving DecidableEq, Repr

/-- What a handler does to the outside world, in program order: calls on its
`ResponseWriter` and lines handed to the standard logger. -/
inductive Effect
  | WriteHeader (code : Nat)
  | Write (data : String)
  | Log (line : String)
  deriving DecidableEq, Repr

/-- A handler function: the effects so far are passed through. -/
abbrev HandlerFunc := Request → List Effect → Except Fault (List Effect)

/-- The state of a `ResponseWriter`. -/
structure ResponseWriter where
  wroteHeader : Bool := false
  status : Nat := 0
  body : String := ""
  deriving DecidableEq, Repr

/-- `w.WriteHeader(code)`: only the first call counts. -/
def ResponseWriter.WriteHeader (w : ResponseWriter) (code : Nat) : ResponseWriter :=
  if w.wroteHeader then w else { w with wroteHeader := true, status := code }

/-- `w.Write(data)`: a write before any header implies `WriteHeader(200)`. -/
def ResponseWriter.Write (w : ResponseWriter) (data : String) : ResponseWriter :=
  let w := if !w.wroteHeader then w.WriteHeader 200 else w
  { w with body := w.body ++ data }

/-- End of the exchange: a handler that wrote nothing still answers 200. -/
def ResponseWriter.finishRequest (w : ResponseWriter) : ResponseWriter :=
  if !w.wroteHeader then w.WriteHeader 200 else w

def ResponseWriter.apply (w : ResponseWriter) : Effect → ResponseWriter
  | .WriteHeader code => w.WriteHeader code
  | .Write data => w.Write data
  | .Log _ => w

/-- Status and body of an answer. -/
structure Response where
  status : Nat
  body : String
  deriving DecidableEq, Repr

/-- The response recorded by a fresh `ResponseWriter` on which a handler
has performed `effects`: what the handler has written, whatever the request
was.  What the server sends for it is `sent`. -/
def response (effects : List Effect) : Response :=
  let w := (effects.foldl ResponseWriter.apply {}).finishRequest
  ⟨w.status, w.body⟩

/-- The lines a handler has logged. -/
def logged (effects : List Effect) : List String :=
  effects.filterMap fun e => match e with
    | .Log line => some line
    | _ => none

/-- `bodyAllowedForStatus`: the statuses that go with a body. -/
def bodyAllowedForStatus (status : Nat) : Bool :=
  if 100 ≤ status ∧ status ≤ 199 then false
  else if status = 204 then false
  else if status = 304 then false
  else true

/-- The response the server sends on the connection for the request `r`
when the handler has performed `effects` on the `ResponseWriter` of the
exchange: the status is the one recorded; the bytes written are sent as the
body, except that the server drops them in answer to a HEAD request and
under a status that goes without a body. -/
def sent (r : Request) (effects : List Effect) : Response :=
  ⟨(response effects).status,
    if r.Method = "HEAD" ∨ bodyAllowedForStatus (response effects).status = false then ""
    else (response effects).body⟩

def StatusOK : Nat := 200
def StatusTemporaryRedirect : Nat := 307
def StatusBadRequest : Nat := 400
def StatusNotFound : Nat := 404

def ishex (c : Char) : Bool :=
  ('0' ≤ c && c ≤ '9') || ('a' ≤ c && c ≤ 'f') || ('A' ≤ c && c ≤ 'F')

def unhex (c : Char) : Nat :=
  if '0' ≤ c ∧ c ≤ '9' then c.toNat - '0'.toNat
  else if 'a' ≤ c ∧ c ≤ 'f' then c.toNat - 'a'.toNat + 10
  else if 'A' ≤ c ∧ c ≤ 'F' then c.toNat - 'A'.toNat + 10
  else 0

/-- Percent-decoding of a path segment (`url.PathUnescape`): `none` when a
percent sign is not followed by two hexadecimal digits.  A decoded byte is
kept as the character with that code; escaped paths are ASCII. -/
def unescape : List Char → Option (List Char)
  | [] => some []
  | c :: cs =>
    if c = '%' then
      match cs with
      | h :: l :: rest =>
        if ishex h && ishex l then
          match unescape rest with
          | some out => some (Char.ofNat (unhex h * 16 + unhex l) :: out)
          | none => none
        else none
      | _ => none
    else
      match unescape cs with
      | some out => some (c :: out)
      | none => none

/-- `pathUnescape`: the segment decoded, or as it is when it cannot be
decoded. -/
def pathUnescape (s : List Char) : List Char :=
  (unescape s).getD s

/-- The segments that `firstSegment` yields one after the other: the text
read after the slash that was dropped, up to the next slash; a path that
is left as a single slash yields the segment `/`. -/
def readSegments : List Char → List Char → List (List Char)
  | [], acc => [pathUnescape acc.reverse]
  | c :: rest, acc =>
    if c = '/' then
      pathUnescape acc.reverse :: (if rest = [] then [['/']] else readSegments rest [])
    else readSegments rest (c :: acc)

/-- The segments of a request path, as the routing tree walks them. -/
def segments (path : List Char) : List (List Char) :=
  if path = [] then []
  else if path = ['/'] then [['/']]
  else readSegments path.tail []

/-- The segments of the path of a pattern (`parsePattern`): literal
segments, and whether the pattern ends in a slash, which makes its last
segment an anonymous multi wildcard. -/
def readPattern : List Char → List Char → List (List Char) × Bool
  | [], acc => ([pathUnescape acc.reverse], false)
  | c :: rest, acc =>
    if c = '/' then
      if rest = [] then ([pathUnescape acc.reverse], true)
      else
        match readPattern rest [] with
        | (segs, multi) => (pathUnescape acc.reverse :: segs, multi)
    else readPattern rest (c :: acc)

def parsePatternPath (path : List Char) : List (List Char) × Bool :=
  if path.tail = [] then ([], true) else readPattern path.tail []

def HasPrefix (s pre : String) : Bool := pre.data.isPrefixOf s.data

/-- `cleanPath`: the canonical path for `p`, without `.` and `..` elements
and repeated slashes, keeping a trailing slash. -/
def cleanPath (p : String) : String :=
  if p = "" then "/"
  else
    let p := if p.data.head? ≠ some '/' then "/" ++ p else p
    let np := Clean p
    if p.data.getLast? = some '/' ∧ np ≠ "/" then
      if p.length = np.length + 1 ∧ HasPrefix p np then p else np ++ "/"
    else np

/-- A registered pattern with its handler: the pattern as written, its
literal segments, and whether it ends in a slash. -/
structure muxEntry where
  h : HandlerFunc
  pattern : String
  lits : List (List Char)
  multi : Bool

/-- The request multiplexer `http.ServeMux`.  Modelled are patterns that
are a path of literal segments, such as `/` and `/health`; patterns with a
method, a host or a wildcard are outside the model.  For such patterns the
routing tree is given by the list of the registered patterns: the node
reached by the literal segments `s1 ... sd` holds the patterns whose first
`d` segments are these. -/
structure ServeMux where
  patterns : List muxEntry := []

/-- The patterns within the model: a clean ASCII path that starts with a
slash and has no blank, brace or percent sign. -/
def literalPattern (pattern : String) : Bool :=
  decide (pattern.data.head? = some '/') &&
  pattern.data.all (fun c => decide (c.toNat < 128) && c != ' ' && c != '\t' && c != '{'
    && c != '}' && c != '%') &&
  decide (cleanPath pattern = pattern)

/-- `mux.HandleFunc(pattern, handler)`: the pattern is parsed and added,
unless it is empty or is registered already, which panics. -/
def ServeMux.HandleFunc (mux : ServeMux) (pattern : String) (handler : HandlerFunc) :
    Except Fault ServeMux :=
  if pattern = "" then .error (.panic "http: invalid pattern")
  else if literalPattern pattern = false then .error .unmodelled
  else
    match parsePatternPath pattern.data with
    | (lits, multi) =>
      if mux.patterns.any (fun e => e.lits == lits && e.multi == multi) then
        .error (.panic ("pattern " ++ pattern ++ " conflicts with a registered pattern"))
      else .ok { patterns := mux.patterns ++ [⟨handler, pattern, lits, multi⟩] }

/-- `matchPath` on the node that holds the patterns `node`, all of which
agree on their first `d` segments.  At the end of the path the pattern that
ends here matches; otherwise the child for the next segment is tried first,
and then the pattern of this node that ends in a slash. -/
def matchPath (node : List muxEntry) (d : Nat) : List (List Char) → Option muxEntry
  | [] => node.find? (fun e => !e.multi && e.lits.length == d)
  | seg :: rest =>
    match matchPath (node.filter (fun e => e.lits.get? d == some seg)) (d + 1) rest with
    | some e => some e
    | none => node.find? (fun e => e.multi && e.lits.length == d)

/-- `mux.tree.match` for a request path. -/
def ServeMux.match (mux : ServeMux) (path : String) : Option muxEntry :=
  matchPath mux.patterns 0 (segments path.data)

/-- `exactMatch`: the pattern matches the path without its final wildcard
taking up anything. -/
def exactMatch (n : Option muxEntry) (path : String) : Bool :=
  match n with
  | none => false
  | some e =>
    if !e.multi then true
    else if path.data.getLast? ≠ none ∧ path.data.getLast? ≠ some '/' then false
    else e.lits.length + 1 == path.data.count '/'

/-- `r.URL.Path`: the path of the request, decoded. -/
def Request.URLPath (r : Request) : String :=
  ⟨pathUnescape r.Path.data⟩

/-- `mux.matchOrRedirect`: the pattern that matches the path, or, when the
path has no exact match but the path with a slash appended has one, the
path to redirect to.  `withURL` tells whether a URL was passed, without
which no redirect is tried. -/
def ServeMux.matchOrRedirect (mux : ServeMux) (path : String) (withURL : Bool) (r : Request) :
    Option muxEntry × Option String :=
  if !exactMatch (mux.match path) path && withURL && !(path.data.getLast? = some '/') then
    if exactMatch (mux.match (path ++ "/")) (path ++ "/") then
      (none, some (cleanPath r.URLPath ++ "/"))
    else (mux.match path, none)
  else (mux.match path, none)

/-- What `mux.findHandler` returns. -/
inductive Target
  | registered (e : muxEntry)
  | redirect (url : String) (code : Nat)
  | notFound

/-- `mux.findHandler(r)`.  The path read is the escaped path of the
request.  As the documentation of `ServeMux` has it, the multiplexer
sanitises the request path: a request other than CONNECT whose path has `.`
or `..` elements or repeated slashes is answered by a redirect to the
equivalent clean path. -/
def ServeMux.findHandler (mux : ServeMux) (r : Request) : Target :=
  if r.Method = "CONNECT" then
    match (mux.matchOrRedirect r.Path true r).2 with
    | some u => .redirect u StatusTemporaryRedirect
    | none =>
      match (mux.matchOrRedirect r.Path false r).1 with
      | some e => .registered e
      | none => .notFound
  else
    let path := cleanPath r.Path
    match mux.matchOrRedirect path true r with
    | (_, some u) => .redirect u StatusTemporaryRedirect
    | (n, none) =>
      if path ≠ r.Path then .redirect path StatusTemporaryRedirect
      else
        match n with
        | some e => .registered e
        | none => .notFound

/-- How one request was answered.  For the answers the library produces by
itself only the status is modelled. -/
inductive Outcome
  | handled (pattern : String) (effects : List Effect)
  | redirect (url : String) (code : Nat)
  | notFound
  | badRequest
  | globalOptions
  deriving DecidableEq, Repr

def Outcome.status : Outcome → Nat
  | .handled _ effects => (response effects).status
  | .redirect _ code => code
  | .notFound => StatusNotFound
  | .badRequest => StatusBadRequest
  | .globalOptions => StatusOK

/-- `mux.ServeHTTP(w, r)` on a fresh `ResponseWriter`. -/
def ServeMux.ServeHTTP (mux : ServeMux) (r : Request) : Except Fault Outcome :=
  if r.RequestURI = "*" then .ok .badRequest
  else
    match mux.findHandler r with
    | .registered e =>
      match e.h r [] with
      | .error f => .error f
      | .ok effects => .ok (.handled e.pattern effects)
    | .redirect url code => .ok (.redirect url code)
    | .notFound => .ok .notFound

/-- `serverHandler.ServeHTTP`: the server answers `OPTIONS *` by itself and
passes every other request to the multiplexer. -/
def serverHandler (mux : ServeMux) (r : Request) : Except Fault Outcome :=
  if r.RequestURI = "*" ∧ r.Method = "OPTIONS" then .ok .globalOptions
  else mux.ServeHTTP r

/-! ## Packages os and log, the process -/

/-- The surroundings of one run of the program. -/
structure OS where
  /-- result of `os.Hostname()`: the name and the error, if any -/
  Hostname : String × Option String
  /-- the environment: `none` for a variable that is not set -/
  environ : String → Option String
  /-- error of `net.Listen("tcp", addr)`, if any -/
  Listen : String → Option String
  /-- the requests read by the accept loop, in order -/
  requests : List Request
  /-- error with which the accept loop ends after them, if it ends -/
  acceptErr : Option String

/-- `os.Getenv(key)`: the empty string for a variable that is not set. -/
def OS.Getenv (os : OS) (key : String) : String :=
  (os.environ key).getD ""

/-- What the process does, in order. -/
inductive Step
  | Log (line : String)
  | Listen (addr : String)
  | Served (r : Request) (o : Outcome)
  | Exit (code : Nat)
  deriving DecidableEq, Repr

/-- Model of `log.Printf(format, v...)`: the line handed to the logger. -/
def logPrintf (format : String) (v : List String) : Except Fault String :=
  Sprintf format v

/-- The accept loop of `srv.Serve`: one exchange per request. -/
def serveAll (mux : ServeMux) : List Request → Except Fault (List Step)
  | [] => .ok []
  | r :: rs =>
    match serverHandler mux r with
    | .error f => .error f
    | .ok o =>
      match serveAll mux rs with
      | .error f => .error f
      | .ok steps => .ok (.Served r o :: steps)

/-- Model of `http.ListenAndServe(addr, nil)`, with `DefaultServeMux` as the
handler: the steps taken and the error returned; `none` stands for a call
that has not returned, the server being still in its accept loop. -/
def ListenAndServe (os : OS) (DefaultServeMux : ServeMux) (addr : String) :
    Except Fault (List Step × Option String) :=
  match os.Listen addr with
  | some err => .ok ([.Listen addr], some err)
  | none =>
    match serveAll DefaultServeMux os.requests with
    | .error f => .error f
    | .ok steps => .ok (.Listen addr :: steps, os.acceptErr)

/-- Model of `log.Fatal(err)`: the error is logged and the process exits
with status 1. -/
def logFatal (err : String) : List Step :=
  [.Log err, .Exit 1]

/-! ## main.go -/

/-- The handler registered for the pattern "/" (main.go, lines 16-20). -/
def rootHandler (hostname : String) : HandlerFunc := fun r t => do
  let response ← Sprintf "Hello from Go Web App Demo for DockerHub and GHCR %s\n" [hostname]
  let out ← Fprintf response []
  let t := t ++ [.Write out]
  let line ← logPrintf "Request received from %s" [r.RemoteAddr]
  pure (t ++ [.Log line])

/-- The handler registered for the pattern "/health" (main.go, lines 22-26). -/
def healthHandler : HandlerFunc := fun r t => do
  let t := t ++ [.WriteHeader StatusOK]
  let out ← Fprintf "OK" []
  let t := t ++ [.Write out]
  let line ← logPrintf "Health check request received from %s" [r.RemoteAddr]
  pure (t ++ [.Log line])

/-- The state of a run of `main`: its local variables and what it did. -/
structure Run where
  hostname : String
  port : String
  DefaultServeMux : ServeMux
  trace : List Step

/-- The function `main` of main.go. -/
def main (os : OS) : Except Fault Run := do
  let (hostname, err) := os.Hostname
  let hostname := if err ≠ none then "unknown" else hostname
  let mux : ServeMux := {}
  let mux ← mux.HandleFunc "/" (rootHandler hostname)
  let mux ← mux.HandleFunc "/health" healthHandler
  let port := os.Getenv "PORT"
  let port := if port = "" then "2222" else port
  let line ← logPrintf "Starting server on port %s" [port]
  let trace := [Step.Log line]
  let (steps, err) ← ListenAndServe os mux (":" ++ port)
  let trace := trace ++ steps
  match err with
  | some err => pure ⟨hostname, port, mux, trace ++ logFatal err⟩
  | none => pure ⟨hostname, port, mux, trace⟩

/-- The response of an exchange answered by a registered handler. -/
def Outcome.response? : Outcome → Option Response
  | .handled _ effects => some (response effects)
  | _ => none

/-- The addresses passed to `net.Listen`, in order. -/
def listens (trace : List Step) : List String :=
  trace.filterMap fun s => match s with
    | .Listen addr => some addr
    | _ => none

/-- The requests answered, in order. -/
def served (trace : List Step) : List Request :=
  trace.filterMap fun s => match s with
    | .Served r _ => some r
    | _ => none

/-- The state of `DefaultServeMux` after the two registrations of main.go. -/
def registered (hostname : String) : ServeMux :=
  { patterns := [⟨rootHandler hostname, "/", [], true⟩,
                 ⟨healthHandler, "/health", ["health".data], false⟩] }


/-! ## Lemmas on the format interpreter -/

theorem parsenumLoop_length (cs : List Char) (num : Nat) (isnum : Bool) :
    (parsenumLoop cs num isnum).2.2.length ≤ cs.length := by
  induction cs generalizing num isnum with
  | nil => simp [parsenumLoop]
  | cons c cs ih =>
    unfold parsenumLoop
    split_ifs
    · simp
    · exact Nat.le_succ_of_le (ih _ _)
    · simp

theorem parsenum_length (cs : List Char) : (parsenum cs).2.2.length ≤ cs.length :=
  parsenumLoop_length cs 0 false

theorem span_snd_length {α : Type} (f : α → Bool) (l inner after : List α) (x : α)
    (h : l.span f = (inner, x :: after)) : after.length < l.length := by
  have h1 : inner ++ x :: after = l := by
    have := List.span_eq_take_drop f l
    rw [this] at h
    have h2 := congrArg Prod.fst h
    have h3 := congrArg Prod.snd h
    simp only at h2 h3
    rw [← h2, ← h3]
    exact List.takeWhile_append_dropWhile f l
  rw [← h1]
  simp
  omega

theorem parseArgNumber_length (cs : List Char) :
    (parseArgNumber cs).2.2.length ≤ cs.length := by
  unfold parseArgNumber
  split_ifs
  · simp
  · split
    · simp
    · next inner x after h =>
      have := span_snd_length _ _ _ _ _ h
      split
      split_ifs <;> simp <;> omega


theorem argNumber_length (p : pp) (argNum : Nat) (format : List Char) (numArgs : Nat) :
    (argNumber p argNum format numArgs).2.2.1.length ≤ format.length := by
  unfold argNumber
  cases format with
  | nil => simp
  | cons c cs =>
    have := parseArgNumber_length cs
    simp only
    generalize parseArgNumber cs = r at this ⊢
    obtain ⟨index, ok, rest⟩ := r
    simp only at this ⊢
    split_ifs <;> simp <;> omega

theorem scanFlags_length (numArgs argNum : Nat) (p : pp) (cs : List Char) :
    (scanFlags numArgs argNum p cs).2.1.length ≤ cs.length := by
  induction cs generalizing p with
  | nil => simp [scanFlags]
  | cons c cs ih =>
    unfold scanFlags
    split_ifs
    · exact Nat.le_succ_of_le (ih _)
    · exact Nat.le_succ_of_le (ih _)
    · simp
    · simp

theorem scanFlags_zero (argNum : Nat) (p : pp) (cs : List Char) :
    (scanFlags 0 argNum p cs).2.2 = none := by
  induction cs generalizing p with
  | nil => simp [scanFlags]
  | cons c cs ih =>
    unfold scanFlags
    split_ifs with h1 h2 h3
    · exact ih _
    · exact ih _
    · omega
    · simp

theorem tail_length_le {α : Type} (l : List α) : l.tail.length ≤ l.length := by
  cases l <;> simp

theorem parseWidth_length (a : List String) (p : pp) (argNum : Nat) (format : List Char)
    (afterIndex : Bool) :
    (parseWidth a p argNum format afterIndex).2.2.1.length ≤ format.length := by
  unfold parseWidth
  have h1 := parsenum_length format
  have h2 := tail_length_le format
  generalize parsenum format = r at h1 ⊢
  obtain ⟨num, isnum, rest⟩ := r
  generalize intFromArg a argNum = r2
  obtain ⟨x, y, z⟩ := r2
  simp only at h1 ⊢
  split_ifs <;> simp only <;> omega

theorem parsePrecision_length (a : List String) (p : pp) (argNum : Nat) (format : List Char)
    (afterIndex : Bool) :
    (parsePrecision a p argNum format afterIndex).2.2.1.length ≤ format.length := by
  unfold parsePrecision
  have e0 := tail_length_le format
  by_cases h0 : format.head? = some '.'
  · rw [if_pos h0]
    simp only
    generalize (if afterIndex = true then ({ p with goodArgNum := false } : pp) else p) = p0
    have e1 := argNumber_length p0 argNum format.tail a.length
    generalize argNumber p0 argNum format.tail a.length = r1 at e1 ⊢
    obtain ⟨p1, k1, f1, ai1⟩ := r1
    have e2 := tail_length_le f1
    have e3 := parsenum_length f1
    generalize parsenum f1 = r at e3 ⊢
    obtain ⟨num, isnum, rest⟩ := r
    generalize intFromArg a k1 = r2
    obtain ⟨x, y, z⟩ := r2
    simp only at e1 e3 ⊢
    split_ifs <;> simp only <;> omega
  · rw [if_neg h0]

theorem parseVerb_length (a : List String) (p : pp) (argNum : Nat) (format : List Char) :
    (parseVerb a p argNum format).2.2.length ≤ format.length := by
  unfold parseVerb
  simp only
  have e1 := argNumber_length p argNum format a.length
  generalize argNumber p argNum format a.length = r1 at e1 ⊢
  obtain ⟨p1, k1, f1, ai1⟩ := r1
  simp only at e1 ⊢
  have e2 := parseWidth_length a p1 k1 f1 ai1
  generalize parseWidth a p1 k1 f1 ai1 = r2 at e2 ⊢
  obtain ⟨p2, k2, f2, ai2⟩ := r2
  simp only at e2 ⊢
  have e3 := parsePrecision_length a p2 k2 f2 ai2
  generalize parsePrecision a p2 k2 f2 ai2 = r3 at e3 ⊢
  obtain ⟨p3, k3, f3, ai3⟩ := r3
  simp only at e3 ⊢
  have e4 := argNumber_length p3 k3 f3 a.length
  generalize argNumber p3 k3 f3 a.length = r4 at e4 ⊢
  obtain ⟨p4, k4, f4, ai4⟩ := r4
  simp only at e4 ⊢
  split_ifs <;> simp only <;> omega

/-- With no operands the format loop always returns: nothing is printed
from an operand, and the fuel of one step per format character suffices. -/
theorem doPrintfLoop_nil_ok (n : Nat) (p : pp) (argNum : Nat) (cs : List Char)
    (h : cs.length ≤ n) : ∃ q, doPrintfLoop [] n p argNum cs = .ok q := by
  induction n generalizing p argNum cs with
  | zero =>
    cases cs with
    | nil => exact ⟨(p, argNum), by simp [doPrintfLoop]⟩
    | cons c cs => simp at h
  | succ n ih =>
    cases cs with
    | nil => exact ⟨(p, argNum), by simp [doPrintfLoop]⟩
    | cons c cs =>
      simp only [List.length_cons, Nat.add_le_add_iff_right] at h
      unfold doPrintfLoop
      split_ifs with hc
      · exact ih _ _ _ h
      · have hz := scanFlags_zero argNum { p with goodArgNum := true, fmt := {} } cs
        have hl := scanFlags_length 0 argNum { p with goodArgNum := true, fmt := {} } cs
        simp only [List.length_nil]
        split
        · next p1 rest verb h1 =>
          rw [h1] at hz
          simp at hz
        · next p1 rest h1 =>
          rw [h1] at hl
          simp only at hl
          have hv := parseVerb_length [] p1 argNum rest
          split
          · exact ⟨_, rfl⟩
          · next p2 k2 verb rest2 h2 =>
            rw [h2] at hv
            simp only [List.length_cons] at hv
            have hr : rest2.length ≤ n := by omega
            split_ifs
            · exact ih _ _ _ hr
            · exact ih _ _ _ hr
            · simp only [List.get?_nil]
              exact ih _ _ _ hr

theorem doPrintf_nil_ok (format : String) : ∃ q, doPrintf format [] = .ok q := by
  unfold doPrintf
  obtain ⟨⟨p, k⟩, hq⟩ := doPrintfLoop_nil_ok format.length {} 0 format.data (le_refl _)
  rw [hq]
  simp

theorem Sprintf_nil_ok (format : String) : ∃ s, Sprintf format [] = .ok s := by
  unfold Sprintf
  obtain ⟨q, hq⟩ := doPrintf_nil_ok format
  rw [hq]
  exact ⟨_, rfl⟩


/-- A format without a percent sign is copied to the buffer unchanged. -/
theorem doPrintfLoop_plain (a : List String) (n : Nat) (p : pp) (argNum : Nat) (cs : List Char)
    (hp : '%' ∉ cs) (h : cs.length ≤ n) :
    doPrintfLoop a n p argNum cs = .ok ({ p with buf := p.buf ++ cs }, argNum) := by
  induction cs generalizing n p with
  | nil => cases n <;> simp [doPrintfLoop]
  | cons c cs ih =>
    cases n with
    | zero => simp at h
    | succ n =>
      simp only [List.length_cons, Nat.add_le_add_iff_right] at h
      simp only [List.mem_cons, not_or] at hp
      unfold doPrintfLoop
      rw [if_pos (fun e => hp.1 e.symm)]
      rw [ih n _ hp.2 h]
      simp [pp.writeRune]

theorem Sprintf_plain (format : String) (hp : '%' ∉ format.data) :
    Sprintf format [] = .ok format := by
  unfold Sprintf doPrintf
  rw [doPrintfLoop_plain [] format.length {} 0 format.data hp (le_refl _)]
  simp

theorem Sprintf_greeting (hostname : String) :
    Sprintf "Hello from Go Web App Demo for DockerHub and GHCR %s\n" [hostname]
      = .ok ("Hello from Go Web App Demo for DockerHub and GHCR " ++ hostname ++ "\n") := rfl

theorem logPrintf_request (addr : String) :
    logPrintf "Request received from %s" [addr] = .ok ("Request received from " ++ addr) := rfl

theorem logPrintf_health (addr : String) :
    logPrintf "Health check request received from %s" [addr]
      = .ok ("Health check request received from " ++ addr) := rfl

theorem logPrintf_starting (port : String) :
    logPrintf "Starting server on port %s" [port] = .ok ("Starting server on port " ++ port) := rfl

theorem Fprintf_OK : Fprintf "OK" [] = .ok "OK" := rfl

/-- The effects of the root handler: one write of the formatted greeting,
then one log line. -/
theorem rootHandler_eq (hostname : String) (r : Request) (t : List Effect) :
    ∃ body, Fprintf ("Hello from Go Web App Demo for DockerHub and GHCR " ++ hostname ++ "\n") []
        = .ok body ∧
      rootHandler hostname r t
        = .ok (t ++ [.Write body, .Log ("Request received from " ++ r.RemoteAddr)]) := by
  obtain ⟨body, hb⟩ := Sprintf_nil_ok
    ("Hello from Go Web App Demo for DockerHub and GHCR " ++ hostname ++ "\n")
  refine ⟨body, hb, ?_⟩
  simp only [rootHandler, bind, Except.bind, Sprintf_greeting, Fprintf, hb, logPrintf_request,
    pure, Except.pure, List.append_assoc, List.singleton_append]

theorem healthHandler_eq (r : Request) (t : List Effect) :
    healthHandler r t
      = .ok (t ++ [.WriteHeader 200, .Write "OK",
          .Log ("Health check request received from " ++ r.RemoteAddr)]) := by
  simp only [healthHandler, bind, Except.bind, Fprintf_OK, logPrintf_health,
    pure, Except.pure, List.append_assoc, List.singleton_append, StatusOK]
  rfl


/-! ## Lemmas on path cleaning -/

theorem backtrack_getLast (out : List Char) (h1 : 1 < out.length)
    (h : out.getLast? = some '/') : (backtrack 1 out).getLast? = some '/' := by
  induction out with
  | nil => simp at h1
  | cons c rest ih =>
    cases rest with
    | nil => simp at h1
    | cons d rest =>
      rw [List.getLast?_cons_cons] at h
      unfold backtrack
      split_ifs with hc
      · exact ih hc.1 h
      · exact h

theorem cleanLoop_getLast (n : Nat) (cs out : List Char) (h : out.getLast? = some '/') :
    (cleanLoop true n cs out 1).getLast? = some '/' := by
  induction n generalizing cs out with
  | zero => simpa [cleanLoop] using h
  | succ n ih =>
    cases cs with
    | nil => simpa [cleanLoop] using h
    | cons c cs =>
      have hne : out ≠ [] := by
        intro e; rw [e] at h; simp at h
      unfold cleanLoop
      simp only [Bool.not_true, Bool.false_and, Bool.or_false, Bool.true_and, Bool.false_eq_true,
        if_false]
      split_ifs with h1 h2 h3 h4 h5
      · exact ih _ _ h
      · exact ih _ _ h
      · exact ih _ _ (backtrack_getLast out h4 h)
      · exact ih _ _ h
      · apply ih
        rw [List.getLast?_append_of_ne_nil _ (by simp)]
        obtain ⟨d, out', rfl⟩ := List.exists_cons_of_ne_nil hne
        rw [List.getLast?_cons_cons]
        exact h
      · apply ih
        rw [List.getLast?_append_of_ne_nil _ hne]
        exact h

theorem Clean_head (path : String) (h : path.data.head? = some '/') :
    (Clean path).data.head? = some '/' := by
  unfold Clean
  have hne : path ≠ "" := by
    intro e; rw [e] at h; simp at h
  rw [if_neg hne]
  simp only [h, decide_True, if_true]
  have hl := cleanLoop_getLast path.length path.data.tail ['/'] rfl
  split_ifs with h0
  · rw [List.length_eq_zero] at h0
    rw [h0] at hl
    simp at hl
  · simpa using hl

/-- The canonical path always starts with a slash. -/
theorem cleanPath_head (p : String) : (cleanPath p).data.head? = some '/' := by
  unfold cleanPath
  by_cases h0 : p = ""
  · rw [if_pos h0]; rfl
  · rw [if_neg h0]
    have key : ∀ q : String, q.data.head? = some '/' →
        (if q.data.getLast? = some '/' ∧ Clean q ≠ "/" then
          if q.length = (Clean q).length + 1 ∧ HasPrefix q (Clean q) = true then q
          else Clean q ++ "/"
        else Clean q).data.head? = some '/' := by
      intro q hq
      have hc := Clean_head q hq
      split_ifs
      · exact hq
      · simp only [String.data_append, List.head?_append, hc]
        rfl
      · exact hc
    by_cases h1 : p.data.head? ≠ some '/'
    · simp only [if_pos h1]
      exact key ("/" ++ p) (by simp)
    · simp only [if_neg h1]
      exact key p (by simpa using h1)


/-! ## Lemmas on the multiplexer -/

theorem matchPath_nil (d : Nat) (segs : List (List Char)) : matchPath [] d segs = none := by
  induction segs generalizing d with
  | nil => rfl
  | cons seg rest ih => simp [matchPath, ih]

theorem matchPath_mem (node : List muxEntry) (d : Nat) (segs : List (List Char)) (e : muxEntry)
    (h : matchPath node d segs = some e) : e ∈ node := by
  induction segs generalizing node d with
  | nil => exact List.mem_of_find?_eq_some h
  | cons seg rest ih =>
    unfold matchPath at h
    split at h
    · next e1 h1 =>
      injection h with h
      subst h
      exact List.mem_of_mem_filter (ih _ _ h1)
    · exact List.mem_of_find?_eq_some h

theorem readSegments_ne_nil (l acc : List Char) : readSegments l acc ≠ [] := by
  induction l generalizing acc with
  | nil => simp [readSegments]
  | cons c l ih =>
    unfold readSegments
    by_cases h : c = '/'
    · rw [if_pos h]
      simp
    · rw [if_neg h]
      exact ih _

theorem segments_ne_nil (path : List Char) (h : path ≠ []) : segments path ≠ [] := by
  unfold segments
  rw [if_neg h]
  by_cases h1 : path = ['/']
  · rw [if_pos h1]
    simp
  · rw [if_neg h1]
    exact readSegments_ne_nil _ _

theorem readSegments_getLast (l acc : List Char) :
    (readSegments (l ++ ['/']) acc).getLast? = some ['/'] := by
  induction l generalizing acc with
  | nil => simp [readSegments]
  | cons c l ih =>
    rw [List.cons_append]
    unfold readSegments
    by_cases h1 : c = '/'
    · rw [if_pos h1]
      have hne : l ++ ['/'] ≠ [] := by simp
      rw [if_neg hne]
      have hr := readSegments_ne_nil (l ++ ['/']) []
      obtain ⟨x, xs, hx⟩ := List.exists_cons_of_ne_nil hr
      rw [hx, List.getLast?_cons_cons, ← hx]
      exact ih _
    · rw [if_neg h1]
      exact ih _

/-- The segments of a path that ends in a slash end in the segment `/`. -/
theorem segments_getLast (l : List Char) : (segments (l ++ ['/'])).getLast? = some ['/'] := by
  unfold segments
  rw [if_neg (by simp)]
  split_ifs with h
  · rfl
  · cases l with
    | nil => simp at h
    | cons c l => exact readSegments_getLast l []

theorem unescape_plain (l : List Char) (h : '%' ∉ l) : unescape l = some l := by
  induction l with
  | nil => rfl
  | cons c l ih =>
    simp only [List.mem_cons, not_or] at h
    unfold unescape
    rw [if_neg (fun e => h.1 e.symm), ih h.2]

theorem readSegments_plain (l acc : List Char) (h : '/' ∉ l) :
    readSegments l acc = [pathUnescape (acc.reverse ++ l)] := by
  induction l generalizing acc with
  | nil => simp [readSegments]
  | cons c l ih =>
    simp only [List.mem_cons, not_or] at h
    unfold readSegments
    rw [if_neg (fun e => h.1 e.symm), ih _ h.2]
    simp

theorem readSegments_length (l acc : List Char) (h : '/' ∈ l) :
    2 ≤ (readSegments l acc).length := by
  induction l generalizing acc with
  | nil => simp at h
  | cons c l ih =>
    unfold readSegments
    by_cases hc : c = '/'
    · rw [if_pos hc]
      by_cases hl : l = []
      · rw [if_pos hl]
        simp
      · rw [if_neg hl]
        have := readSegments_ne_nil l []
        rw [List.length_cons]
        have : 0 < (readSegments l []).length := List.length_pos.2 this
        omega
    · rw [if_neg hc]
      apply ih
      rcases List.mem_cons.1 h with h1 | h1
      · exact absurd h1.symm hc
      · exact h1

/-- A path without a percent sign that starts with a slash and has the one
segment `health` is the path `/health`. -/
theorem segments_health_plain (p : String) (hh : p.data.head? = some '/') (hp : '%' ∉ p.data)
    (hs : segments p.data = ["health".data]) : p = "/health" := by
  apply String.ext
  cases hd : p.data with
  | nil => rw [hd] at hh; simp at hh
  | cons c t =>
    rw [hd] at hh hp hs
    simp only [List.head?_cons, Option.some.injEq] at hh
    subst hh
    simp only [List.mem_cons, not_or] at hp
    unfold segments at hs
    rw [if_neg (by simp)] at hs
    by_cases h1 : '/' :: t = ['/']
    · rw [if_pos h1] at hs
      exact absurd hs (by decide)
    · rw [if_neg h1] at hs
      simp only [List.tail_cons] at hs
      by_cases h2 : '/' ∈ t
      · have := readSegments_length t [] h2
        rw [hs] at this
        simp at this
      · rw [readSegments_plain t [] h2] at hs
        simp only [List.reverse_nil, List.nil_append, pathUnescape, unescape_plain t hp.2,
          Option.getD_some, List.cons.injEq, and_true] at hs
        rw [hs]

theorem registered_match (hostname : String) (path : String) :
    (registered hostname).match path =
      if segments path.data = [] then none
      else if segments path.data = ["health".data] then
        some ⟨healthHandler, "/health", ["health".data], false⟩
      else some ⟨rootHandler hostname, "/", [], true⟩ := by
  unfold ServeMux.match registered
  generalize segments path.data = segs
  cases segs with
  | nil => simp [matchPath]
  | cons seg rest =>
    simp only [List.cons_ne_nil, if_false]
    by_cases hseg : seg = "health".data
    · subst hseg
      cases rest with
      | nil => simp [matchPath]
      | cons s2 r2 => simp [matchPath, matchPath_nil]
    · have hne : ¬ ("health".data = seg) := fun e => hseg e.symm
      simp [matchPath, matchPath_nil, hseg, hne]


theorem matchOrRedirect_fst (mux : ServeMux) (path : String) (w : Bool) (r : Request)
    (e : muxEntry) (h : (mux.matchOrRedirect path w r).1 = some e) : mux.match path = some e := by
  unfold ServeMux.matchOrRedirect at h
  split_ifs at h
  · exact h
  · exact h

theorem findHandler_mem (mux : ServeMux) (r : Request) (e : muxEntry)
    (h : mux.findHandler r = .registered e) : e ∈ mux.patterns := by
  unfold ServeMux.findHandler at h
  split_ifs at h with hm
  · split at h
    · simp at h
    · split at h
      · next e1 h1 =>
        injection h with h
        subst h
        exact matchPath_mem _ _ _ _ (matchOrRedirect_fst _ _ _ _ _ h1)
      · simp at h
  · simp only at h
    split at h
    · simp at h
    · next n h1 =>
      split_ifs at h
      split at h
      · next e1 =>
        injection h with h
        subst h
        have : (mux.matchOrRedirect (cleanPath r.Path) true r).1 = some e1 := by rw [h1]
        exact matchPath_mem _ _ _ _ (matchOrRedirect_fst _ _ _ _ _ this)
      · simp at h

theorem count_slash_append (path : String) (hh : path.data.head? = some '/') :
    2 ≤ (path ++ "/").data.count '/' := by
  rw [String.data_append]
  cases hd : path.data with
  | nil => rw [hd] at hh; simp at hh
  | cons c cs =>
    rw [hd] at hh
    simp only [List.head?_cons, Option.some.injEq] at hh
    subst hh
    have : ("/" : String).data = ['/'] := rfl
    rw [this, List.count_append, List.count_cons_self]
    simp

/-- With the patterns of main.go no request is redirected to a path with a
slash appended. -/
theorem registered_matchOrRedirect (hostname : String) (path : String) (w : Bool) (r : Request)
    (hh : path.data.head? = some '/') :
    (registered hostname).matchOrRedirect path w r = ((registered hostname).match path, none) := by
  have hseg : segments (path ++ "/").data ≠ ["health".data] := by
    intro h
    have h1 := segments_getLast path.data
    have h2 : (path ++ "/").data = path.data ++ ['/'] := rfl
    rw [h2] at h
    rw [h] at h1
    simp at h1
  have hne : segments (path ++ "/").data ≠ [] :=
    segments_ne_nil _ (by rw [String.data_append]; simp)
  have hex : exactMatch ((registered hostname).match (path ++ "/")) (path ++ "/") = false := by
    rw [registered_match, if_neg hne, if_neg hseg]
    have hc := count_slash_append path hh
    have hl : (path ++ "/").data.getLast? = some '/' := by
      rw [String.data_append]
      simp
    simp only [exactMatch, Bool.not_true, Bool.false_eq_true, if_false, hl, ne_eq,
      not_true_eq_false, and_false, List.length_nil, Nat.zero_add]
    simp only [beq_eq_false_iff_ne, ne_eq]
    omega
  unfold ServeMux.matchOrRedirect
  rw [hex]
  simp

/-- For a request whose path is in canonical form the handler is the one of
the pattern that matches the path. -/
theorem registered_findHandler_clean (hostname : String) (r : Request)
    (hc : cleanPath r.Path = r.Path) :
    (registered hostname).findHandler r =
      match (registered hostname).match r.Path with
      | some e => .registered e
      | none => .notFound := by
  have hh : r.Path.data.head? = some '/' := by
    have := cleanPath_head r.Path
    rwa [hc] at this
  unfold ServeMux.findHandler
  by_cases hm : r.Method = "CONNECT"
  · rw [if_pos hm]
    simp only [registered_matchOrRedirect hostname r.Path _ r hh]
  · rw [if_neg hm]
    simp only [hc, registered_matchOrRedirect hostname r.Path _ r hh, ne_eq, not_true_eq_false,
      if_false]


/-- A request with a path in canonical form that does not consist of the
one segment `health` is answered by the root handler. -/
theorem registered_ServeHTTP_root (hostname : String) (r : Request)
    (hu : r.RequestURI ≠ "*") (hc : cleanPath r.Path = r.Path)
    (hp : segments r.Path.data ≠ ["health".data]) :
    (registered hostname).ServeHTTP r =
      match rootHandler hostname r [] with
      | .error f => .error f
      | .ok effects => .ok (.handled "/" effects) := by
  have hne : segments r.Path.data ≠ [] := by
    apply segments_ne_nil
    intro h
    have := cleanPath_head r.Path
    rw [hc, h] at this
    simp at this
  unfold ServeMux.ServeHTTP
  rw [if_neg hu, registered_findHandler_clean hostname r hc, registered_match, if_neg hne,
    if_neg hp]

/-- A request for the path /health is answered by the health handler. -/
theorem registered_ServeHTTP_health (hostname : String) (r : Request)
    (hu : r.RequestURI ≠ "*") (hp : r.Path = "/health") :
    (registered hostname).ServeHTTP r =
      match healthHandler r [] with
      | .error f => .error f
      | .ok effects => .ok (.handled "/health" effects) := by
  have hc : cleanPath r.Path = r.Path := by rw [hp]; rfl
  have hs : segments r.Path.data = ["health".data] := by rw [hp]; rfl
  have hne : segments r.Path.data ≠ [] := by rw [hs]; simp
  unfold ServeMux.ServeHTTP
  rw [if_neg hu, registered_findHandler_clean hostname r hc, registered_match, if_neg hne,
    if_pos hs]

/-- Every exchange ends with an outcome, and an exchange answered by a
handler is the run of the root handler or of the health handler. -/
theorem registered_ServeHTTP_cases (hostname : String) (r : Request) :
    (∃ effects, (registered hostname).ServeHTTP r = .ok (.handled "/" effects) ∧
        rootHandler hostname r [] = .ok effects) ∨
    (∃ effects, (registered hostname).ServeHTTP r = .ok (.handled "/health" effects) ∧
        healthHandler r [] = .ok effects) ∨
    (∃ url code, (registered hostname).ServeHTTP r = .ok (.redirect url code)) ∨
    (registered hostname).ServeHTTP r = .ok .notFound ∨
    (registered hostname).ServeHTTP r = .ok .badRequest := by
  obtain ⟨body, -, hroot⟩ := rootHandler_eq hostname r []
  have hhealth := healthHandler_eq r []
  unfold ServeMux.ServeHTTP
  by_cases hu : r.RequestURI = "*"
  · simp [hu]
  · rw [if_neg hu]
    rcases hf : (registered hostname).findHandler r with e | ⟨u, c⟩ | _
    · have hmem := findHandler_mem _ _ _ hf
      simp only [registered, List.mem_cons, List.mem_singleton, List.not_mem_nil,
        or_false] at hmem
      rcases hmem with rfl | rfl
      · simp only [hroot]
        exact Or.inl ⟨_, rfl, rfl⟩
      · simp only [hhealth]
        exact Or.inr (Or.inl ⟨_, rfl, rfl⟩)
    · exact Or.inr (Or.inr (Or.inl ⟨_, _, rfl⟩))
    · simp

theorem registered_ServeHTTP_ok (hostname : String) (r : Request) :
    ∃ o, (registered hostname).ServeHTTP r = .ok o := by
  rcases registered_ServeHTTP_cases hostname r with ⟨e, h, -⟩ | ⟨e, h, -⟩ | ⟨u, c, h⟩ | h | h
  all_goals exact ⟨_, h⟩

theorem registered_serverHandler_ok (hostname : String) (r : Request) :
    ∃ o, serverHandler (registered hostname) r = .ok o := by
  unfold serverHandler
  split_ifs
  · exact ⟨_, rfl⟩
  · exact registered_ServeHTTP_ok hostname r

theorem registered_serveAll_ok (hostname : String) (rs : List Request) :
    ∃ steps, serveAll (registered hostname) rs = .ok steps ∧
      steps.length = rs.length ∧
      ∀ s ∈ steps, ∃ r o, s = Step.Served r o ∧ serverHandler (registered hostname) r = .ok o := by
  induction rs with
  | nil => exact ⟨[], rfl, rfl, by simp⟩
  | cons r rs ih =>
    obtain ⟨steps, hs, hl, hall⟩ := ih
    obtain ⟨o, ho⟩ := registered_serverHandler_ok hostname r
    refine ⟨.Served r o :: steps, ?_, by simp [hl], ?_⟩
    · simp only [serveAll, ho, hs]
    · intro s hs'
      rcases List.mem_cons.1 hs' with rfl | h
      · exact ⟨r, o, rfl, ho⟩
      · exact hall s h

/-- The run of `main`, in closed form. -/
theorem main_eq (os : OS) :
    ∃ steps, serveAll (registered (if os.Hostname.2 ≠ none then "unknown" else os.Hostname.1))
        os.requests = .ok steps ∧
      main os = .ok
        { hostname := if os.Hostname.2 ≠ none then "unknown" else os.Hostname.1
          port := if os.Getenv "PORT" = "" then "2222" else os.Getenv "PORT"
          DefaultServeMux := registered (if os.Hostname.2 ≠ none then "unknown" else os.Hostname.1)
          trace :=
            Step.Log ("Starting server on port " ++
                (if os.Getenv "PORT" = "" then "2222" else os.Getenv "PORT")) ::
              Step.Listen (":" ++ (if os.Getenv "PORT" = "" then "2222" else os.Getenv "PORT")) ::
              (match os.Listen (":" ++ (if os.Getenv "PORT" = "" then "2222" else os.Getenv "PORT"))
                with
               | some err => [Step.Log err, Step.Exit 1]
               | none => steps ++
                  (match os.acceptErr with
                   | some err => [Step.Log err, Step.Exit 1]
                   | none => [])) } := by
  obtain ⟨steps, hs, -, -⟩ := registered_serveAll_ok
    (if os.Hostname.2 ≠ none then "unknown" else os.Hostname.1) os.requests
  refine ⟨steps, hs, ?_⟩
  unfold main
  simp only [bind, Except.bind, pure, Except.pure]
  generalize (if os.Hostname.2 ≠ none then "unknown" else os.Hostname.1) = H at hs ⊢
  generalize (if os.Getenv "PORT" = "" then "2222" else os.Getenv "PORT") = P
  have h1 : ({} : ServeMux).HandleFunc "/" (rootHandler H)
      = .ok { patterns := [⟨rootHandler H, "/", [], true⟩] } := rfl
  have h2 : ({ patterns := [⟨rootHandler H, "/", [], true⟩] } : ServeMux).HandleFunc
      "/health" healthHandler = .ok (registered H) := rfl
  simp only [h1, h2, logPrintf_starting, ListenAndServe]
  cases hl : os.Listen (":" ++ P) with
  | some err => simp [logFatal]
  | none =>
    simp only [hs]
    cases os.acceptErr with
    | some err => simp [logFatal]
    | none => simp



/-! ## Fuel -/

theorem dropWhile_length_le {α : Type} (f : α → Bool) (l : List α) :
    (l.dropWhile f).length ≤ l.length := by
  induction l with
  | nil => simp
  | cons a l ih =>
    rw [List.dropWhile_cons]
    split_ifs
    · exact Nat.le_succ_of_le ih
    · exact le_refl _

/-- The fuel given to the element loop of `Clean` is enough: any two amounts
of at least the length of the unread path give the same result. -/
theorem cleanLoop_fuel (rooted : Bool) (n m : Nat) (cs out : List Char) (dotdot : Nat)
    (hn : cs.length ≤ n) (hm : cs.length ≤ m) :
    cleanLoop rooted n cs out dotdot = cleanLoop rooted m cs out dotdot := by
  induction n generalizing m cs out dotdot with
  | zero =>
    have : cs = [] := List.length_eq_zero.1 (Nat.le_zero.1 hn)
    subst this
    cases m <;> rfl
  | succ n ih =>
    cases cs with
    | nil => cases m <;> rfl
    | cons c cs =>
      cases m with
      | zero => simp at hm
      | succ m =>
        simp only [List.length_cons, Nat.add_le_add_iff_right] at hn hm
        have ht := tail_length_le cs
        unfold cleanLoop
        simp only [List.span_eq_take_drop]
        have hd : ¬ c = '/' →
            (List.dropWhile (fun x => x != '/') (c :: cs)).length ≤ cs.length := by
          intro h1
          rw [List.dropWhile_cons, if_pos (by simpa using h1)]
          exact dropWhile_length_le _ _
        split_ifs with h1
        all_goals
          first
          | exact ih _ _ _ _ hn hm
          | exact ih _ _ _ _ (by omega) (by omega)
          | exact ih _ _ _ _ (le_trans (hd h1) hn) (le_trans (hd h1) hm)

/-- The format loop never runs out of fuel when it is given one step per
format character. -/
theorem doPrintfLoop_fuel (a : List String) (n : Nat) (p : pp) (argNum : Nat) (cs : List Char)
    (h : cs.length ≤ n) : doPrintfLoop a n p argNum cs ≠ .error .fuel := by
  induction n generalizing p argNum cs with
  | zero =>
    have : cs = [] := List.length_eq_zero.1 (Nat.le_zero.1 h)
    subst this
    simp [doPrintfLoop]
  | succ n ih =>
    cases cs with
    | nil => simp [doPrintfLoop]
    | cons c cs =>
      simp only [List.length_cons, Nat.add_le_add_iff_right] at h
      unfold doPrintfLoop
      split_ifs with hc
      · exact ih _ _ _ h
      · have hl := scanFlags_length a.length argNum { p with goodArgNum := true, fmt := {} } cs
        split
        · next p1 rest verb h1 =>
          rw [h1] at hl
          simp only at hl
          split
          · simp
          · next arg _ =>
            unfold printArg
            split_ifs
            · exact ih _ _ _ (by omega)
            · simp
        · next p1 rest h1 =>
          rw [h1] at hl
          simp only at hl
          have hv := parseVerb_length a p1 argNum rest
          split
          · simp
          · next p2 k2 verb rest2 h2 =>
            rw [h2] at hv
            simp only [List.length_cons] at hv
            have hr : rest2.length ≤ n := by omega
            split_ifs
            · exact ih _ _ _ hr
            · exact ih _ _ _ hr
            · split
              · exact ih _ _ _ hr
              · unfold printArg
                split_ifs
                · exact ih _ _ _ hr
                · simp


/-! ## Further lemmas on responses and traces -/

theorem response_write_log (body line : String) :
    response [.Write body, .Log line] = ⟨200, body⟩ := by
  simp [response, ResponseWriter.apply, ResponseWriter.Write, ResponseWriter.WriteHeader,
    ResponseWriter.finishRequest]

theorem response_header_write_log (code : Nat) (body line : String) :
    response [.WriteHeader code, .Write body, .Log line] = ⟨code, body⟩ := by
  simp [response, ResponseWriter.apply, ResponseWriter.Write, ResponseWriter.WriteHeader,
    ResponseWriter.finishRequest]

theorem sent_write_log (r : Request) (body line : String) :
    sent r [.Write body, .Log line] = ⟨200, if r.Method = "HEAD" then "" else body⟩ := by
  simp [sent, response_write_log, bodyAllowedForStatus]

theorem sent_header_write_log (r : Request) (body line : String) :
    sent r [.WriteHeader 200, .Write body, .Log line]
      = ⟨200, if r.Method = "HEAD" then "" else body⟩ := by
  simp [sent, response_header_write_log, bodyAllowedForStatus]

theorem listens_served (steps : List Step) (h : ∀ s ∈ steps, ∃ r o, s = Step.Served r o) :
    listens steps = [] := by
  induction steps with
  | nil => rfl
  | cons s steps ih =>
    obtain ⟨r, o, rfl⟩ := h _ (List.mem_cons_self _ _)
    have := ih (fun s hs => h s (List.mem_cons_of_mem _ hs))
    simpa [listens] using this

theorem listens_append (a b : List Step) : listens (a ++ b) = listens a ++ listens b := by
  simp [listens]

/-- The run of `main`: it always comes about, and its trace is the start-up
line, the call of listen, the exchanges, and the fatal end if there is
one. -/
theorem main_run (os : OS) :
    ∃ run steps, main os = .ok run ∧
      run.hostname = (if os.Hostname.2 ≠ none then "unknown" else os.Hostname.1) ∧
      run.port = (if os.Getenv "PORT" = "" then "2222" else os.Getenv "PORT") ∧
      run.DefaultServeMux = registered run.hostname ∧
      serveAll (registered run.hostname) os.requests = .ok steps ∧
      (∀ s ∈ steps, ∃ r o, s = Step.Served r o ∧
        serverHandler (registered run.hostname) r = .ok o) ∧
      run.trace =
        Step.Log ("Starting server on port " ++ run.port) :: Step.Listen (":" ++ run.port) ::
          (match os.Listen (":" ++ run.port) with
           | some err => [Step.Log err, Step.Exit 1]
           | none => steps ++
              (match os.acceptErr with
               | some err => [Step.Log err, Step.Exit 1]
               | none => [])) := by
  obtain ⟨steps, hs, hm⟩ := main_eq os
  obtain ⟨steps', hs', -, hall⟩ := registered_serveAll_ok
    (if os.Hostname.2 ≠ none then "unknown" else os.Hostname.1) os.requests
  have : steps' = steps := by
    rw [hs] at hs'
    injection hs' with h
    exact h.symm
  subst this
  exact ⟨_, steps', hm, rfl, rfl, rfl, hs, hall, rfl⟩

/-- In a sequence of requests each one is answered as it would be alone. -/
theorem registered_serveAll_split (hostname : String) (before : List Request) (r : Request)
    (after : List Request) :
    ∃ sb o sa, serveAll (registered hostname) (before ++ r :: after)
        = .ok (sb ++ Step.Served r o :: sa) ∧
      sb.length = before.length ∧ serverHandler (registered hostname) r = .ok o := by
  induction before with
  | nil =>
    obtain ⟨o, ho⟩ := registered_serverHandler_ok hostname r
    obtain ⟨sa, hsa, -, -⟩ := registered_serveAll_ok hostname after
    exact ⟨[], o, sa, by simp only [List.nil_append, serveAll, ho, hsa], rfl, ho⟩
  | cons x before ih =>
    obtain ⟨sb, o, sa, h, hl, ho⟩ := ih
    obtain ⟨ox, hox⟩ := registered_serverHandler_ok hostname x
    refine ⟨Step.Served x ox :: sb, o, sa, ?_, by simp [hl], ho⟩
    have e : serveAll (registered hostname) (x :: (before ++ r :: after))
        = .ok (Step.Served x ox :: (sb ++ Step.Served r o :: sa)) := by
      simp only [serveAll, hox, h]
    exact e

/-- An exchange answered by a handler is the run of the root handler under
the pattern `/` or the run of the health handler under `/health`. -/
theorem registered_handled_inv (hostname : String) (r : Request) (pat : String)
    (effects : List Effect)
    (h : (registered hostname).ServeHTTP r = .ok (.handled pat effects)) :
    (pat = "/" ∧ rootHandler hostname r [] = .ok effects) ∨
    (pat = "/health" ∧ healthHandler r [] = .ok effects) := by
  rcases registered_ServeHTTP_cases hostname r with
    ⟨e, h1, h2⟩ | ⟨e, h1, h2⟩ | ⟨u, c, h1⟩ | h1 | h1
  · rw [h1] at h
    simp only [Except.ok.injEq, Outcome.handled.injEq] at h
    exact Or.inl ⟨h.1.symm, h.2 ▸ h2⟩
  · rw [h1] at h
    simp only [Except.ok.injEq, Outcome.handled.injEq] at h
    exact Or.inr ⟨h.1.symm, h.2 ▸ h2⟩
  · rw [h1] at h
    simp at h
  · rw [h1] at h
    simp at h
  · rw [h1] at h
    simp at h


/-! ## The claims -/

/-- C1 (defect witnessed): on a host named `a%d` a request to the root is
answered with status 200, but the body is not the greeting with the host
name: the built string is used as a format, and `%d` without operand
prints as `%!d(MISSING)`. -/
theorem root_body_percent_hostname :
    (main ⟨("a%d", none), fun _ => none, fun _ => none,
        [{ RemoteAddr := "10.0.0.7:5000" }], none⟩).map (fun run => run.trace)
      = .ok [ .Log "Starting server on port 2222", .Listen ":2222",
              .Served { RemoteAddr := "10.0.0.7:5000" }
                (.handled "/"
                  [ .Write "Hello from Go Web App Demo for DockerHub and GHCR a%!d(MISSING)\n",
                    .Log "Request received from 10.0.0.7:5000" ]) ]
    ∧ response [ .Write "Hello from Go Web App Demo for DockerHub and GHCR a%!d(MISSING)\n",
                 .Log "Request received from 10.0.0.7:5000" ]
        = ⟨200, "Hello from Go Web App Demo for DockerHub and GHCR a%!d(MISSING)\n"⟩
    ∧ "Hello from Go Web App Demo for DockerHub and GHCR a%!d(MISSING)\n"
        ≠ "Hello from Go Web App Demo for DockerHub and GHCR " ++ "a%d" ++ "\n" :=
  ⟨rfl, rfl, by decide⟩

/-- C2 as stated fails for the method HEAD: the health handler sets the
status 200 and writes `OK`, but in answer to `HEAD /health` the server
sends the status 200 without a body. -/
theorem health_head_counterexample :
    (main ⟨("box", none), fun _ => none, fun _ => none,
        [{ Method := "HEAD", Path := "/health", RequestURI := "/health" }],
        none⟩).map (fun run => run.trace)
      = .ok [ .Log "Starting server on port 2222", .Listen ":2222",
              .Served { Method := "HEAD", Path := "/health", RequestURI := "/health" }
                (.handled "/health"
                  [ .WriteHeader 200, .Write "OK",
                    .Log "Health check request received from " ]) ]
    ∧ sent { Method := "HEAD", Path := "/health", RequestURI := "/health" }
        [ .WriteHeader 200, .Write "OK", .Log "Health check request received from " ]
        = ⟨200, ""⟩
    ∧ sent { Method := "HEAD", Path := "/health", RequestURI := "/health" }
        [ .WriteHeader 200, .Write "OK", .Log "Health check request received from " ]
        ≠ ⟨200, "OK"⟩ :=
  ⟨rfl, rfl, by decide⟩

/-- C2 (amended): for every request handed to the /health handler, whatever
its fields, the handler sets the status 200 and writes `OK`, nothing after
it; the response sent has the status 200; its body is `OK` for every method
other than HEAD and empty for HEAD. -/
theorem health_response (r : Request) :
    ∃ effects, healthHandler r [] = .ok effects ∧ response effects = ⟨200, "OK"⟩ ∧
      (sent r effects).status = 200 ∧
      (r.Method ≠ "HEAD" → sent r effects = ⟨200, "OK"⟩) ∧
      (r.Method = "HEAD" → sent r effects = ⟨200, ""⟩) := by
  refine ⟨_, healthHandler_eq r [], response_header_write_log 200 "OK" _, ?_, ?_, ?_⟩
  · rw [List.nil_append, sent_header_write_log]
  · intro h
    rw [List.nil_append, sent_header_write_log, if_neg h]
  · intro h
    rw [List.nil_append, sent_header_write_log, if_pos h]

/-- Witness of `health_response`: a POST with a header and a body. -/
theorem health_response_witness :
    ∃ effects,
      healthHandler ⟨"POST", "", "/health", "/health", "10.0.0.9:6000", [("X-Test", "1")],
          "data"⟩ []
        = .ok effects ∧
      sent ⟨"POST", "", "/health", "/health", "10.0.0.9:6000", [("X-Test", "1")], "data"⟩
          effects
        = ⟨200, "OK"⟩ := by
  obtain ⟨effects, h, -, -, h1, -⟩ := health_response
    ⟨"POST", "", "/health", "/health", "10.0.0.9:6000", [("X-Test", "1")], "data"⟩
  exact ⟨effects, h, h1 (by decide)⟩

/-- C3 as stated fails: the path `//foo` is not `/health`, yet the request
is not answered like a request for `/`.  The multiplexer answers it by
itself with a redirect to the clean path `/foo` and runs no handler; the
request for `/` gets the greeting with status 200. -/
theorem catch_all_counterexample :
    (main ⟨("box", none), fun _ => none, fun _ => none,
        [{ Path := "//foo", RequestURI := "//foo" }, { Path := "/", RequestURI := "/" }],
        none⟩).map (fun run => run.trace)
      = .ok [ .Log "Starting server on port 2222", .Listen ":2222",
              .Served { Path := "//foo", RequestURI := "//foo" } (.redirect "/foo" 307),
              .Served { Path := "/", RequestURI := "/" }
                (.handled "/"
                  [ .Write "Hello from Go Web App Demo for DockerHub and GHCR box\n",
                    .Log "Request received from " ]) ]
    ∧ (Outcome.redirect "/foo" 307).status ≠
        (Outcome.handled "/"
          [ .Write "Hello from Go Web App Demo for DockerHub and GHCR box\n",
            .Log "Request received from " ]).status
    ∧ (Outcome.redirect "/foo" 307).response? ≠
        (Outcome.handled "/"
          [ .Write "Hello from Go Web App Demo for DockerHub and GHCR box\n",
            .Log "Request received from " ]).response? :=
  ⟨rfl, by decide, by decide⟩

/-- C3 (amended): among the requests whose target is not `*`, a request
whose path is in canonical form (the path cleaning of the multiplexer
leaves it as it is) and does not consist of the one segment `health` is
answered by the root handler, with the same response as a request for `/`
that is a HEAD request if and only if it is one; a request for the exact
path `/health` gets the health response.  The path is the escaped path that
the multiplexer reads, and its segments are compared after
percent-decoding: for a canonical path without a percent sign, not to
consist of the one segment `health` is not to be `/health`. -/
theorem catch_all_canonical (os : OS) :
    ∃ run, main os = .ok run ∧
      (∀ r r0 : Request, r.RequestURI ≠ "*" → cleanPath r.Path = r.Path →
          segments r.Path.data ≠ ["health".data] →
          r0.RequestURI ≠ "*" → r0.Path = "/" → (r.Method = "HEAD" ↔ r0.Method = "HEAD") →
          ∃ e e0, run.DefaultServeMux.ServeHTTP r = .ok (.handled "/" e) ∧
            run.DefaultServeMux.ServeHTTP r0 = .ok (.handled "/" e0) ∧
            response e = response e0 ∧ sent r e = sent r0 e0) ∧
      (∀ r : Request, r.RequestURI ≠ "*" → r.Path = "/health" →
          ∃ e, run.DefaultServeMux.ServeHTTP r = .ok (.handled "/health" e) ∧
            response e = ⟨200, "OK"⟩ ∧
            sent r e = ⟨200, if r.Method = "HEAD" then "" else "OK"⟩) ∧
      (∀ p : String, cleanPath p = p → '%' ∉ p.data → p ≠ "/health" →
          segments p.data ≠ ["health".data]) ∧
      segments "/health".data = ["health".data] := by
  obtain ⟨run, steps, hm, -, -, hmux, -, -, -⟩ := main_run os
  refine ⟨run, hm, ?_, ?_, ?_, rfl⟩
  · intro r r0 hu hc hp hu0 hp0 hhead
    obtain ⟨body, hb, hr⟩ := rootHandler_eq run.hostname r []
    obtain ⟨body0, hb0, hr0⟩ := rootHandler_eq run.hostname r0 []
    have hc0 : cleanPath r0.Path = r0.Path := by rw [hp0]; rfl
    have hn0 : segments r0.Path.data ≠ ["health".data] := by rw [hp0]; decide
    have hbb : body = body0 := by
      rw [hb] at hb0
      injection hb0
    refine ⟨[.Write body, .Log ("Request received from " ++ r.RemoteAddr)],
      [.Write body0, .Log ("Request received from " ++ r0.RemoteAddr)], ?_, ?_, ?_, ?_⟩
    · rw [hmux, registered_ServeHTTP_root run.hostname r hu hc hp, hr]
      rfl
    · rw [hmux, registered_ServeHTTP_root run.hostname r0 hu0 hc0 hn0, hr0]
      rfl
    · rw [response_write_log, response_write_log, hbb]
    · rw [sent_write_log, sent_write_log, hbb]
      by_cases h : r.Method = "HEAD"
      · rw [if_pos h, if_pos (hhead.1 h)]
      · rw [if_neg h, if_neg (fun h0 => h (hhead.2 h0))]
  · intro r hu hp
    refine ⟨[.WriteHeader 200, .Write "OK",
      .Log ("Health check request received from " ++ r.RemoteAddr)], ?_,
      response_header_write_log 200 "OK" _, sent_header_write_log r "OK" _⟩
    rw [hmux, registered_ServeHTTP_health run.hostname r hu hp, healthHandler_eq]
    rfl
  · intro p hc hp hne hs
    have hh : p.data.head? = some '/' := by
      have := cleanPath_head p
      rwa [hc] at this
    exact hne (segments_health_plain p hh hp hs)

/-- Witness of `catch_all_canonical`: on a host named `box`, the requests
for `/foo`, `/bar/baz`, `/health/` and `/healthz` are answered like the
request for `/`. -/
theorem catch_all_canonical_witness :
    ∃ run, main ⟨("box", none), fun _ => none, fun _ => none, [], none⟩ = .ok run ∧
      (∃ e e0,
        run.DefaultServeMux.ServeHTTP { Path := "/foo", RequestURI := "/foo" }
          = .ok (.handled "/" e) ∧
        run.DefaultServeMux.ServeHTTP { Path := "/", RequestURI := "/" }
          = .ok (.handled "/" e0) ∧
        response e = response e0 ∧
        sent { Path := "/foo", RequestURI := "/foo" } e
          = sent { Path := "/", RequestURI := "/" } e0) ∧
      (∃ e e0,
        run.DefaultServeMux.ServeHTTP { Path := "/bar/baz", RequestURI := "/bar/baz" }
          = .ok (.handled "/" e) ∧
        run.DefaultServeMux.ServeHTTP { Path := "/", RequestURI := "/" }
          = .ok (.handled "/" e0) ∧
        response e = response e0 ∧
        sent { Path := "/bar/baz", RequestURI := "/bar/baz" } e
          = sent { Path := "/", RequestURI := "/" } e0) ∧
      (∃ e e0,
        run.DefaultServeMux.ServeHTTP { Path := "/health/", RequestURI := "/health/" }
          = .ok (.handled "/" e) ∧
        run.DefaultServeMux.ServeHTTP { Path := "/", RequestURI := "/" }
          = .ok (.handled "/" e0) ∧
        response e = response e0 ∧
        sent { Path := "/health/", RequestURI := "/health/" } e
          = sent { Path := "/", RequestURI := "/" } e0) ∧
      (∃ e e0,
        run.DefaultServeMux.ServeHTTP
            { Method := "HEAD", Path := "/healthz", RequestURI := "/healthz" }
          = .ok (.handled "/" e) ∧
        run.DefaultServeMux.ServeHTTP { Method := "HEAD", Path := "/", RequestURI := "/" }
          = .ok (.handled "/" e0) ∧
        response e = response e0 ∧
        sent { Method := "HEAD", Path := "/healthz", RequestURI := "/healthz" } e
          = sent { Method := "HEAD", Path := "/", RequestURI := "/" } e0) := by
  obtain ⟨run, h, h1, -, -, -⟩ :=
    catch_all_canonical ⟨("box", none), fun _ => none, fun _ => none, [], none⟩
  exact ⟨run, h,
    h1 { Path := "/foo", RequestURI := "/foo" } { Path := "/", RequestURI := "/" }
      (by decide) rfl (by decide) (by decide) rfl (by decide),
    h1 { Path := "/bar/baz", RequestURI := "/bar/baz" } { Path := "/", RequestURI := "/" }
      (by decide) rfl (by decide) (by decide) rfl (by decide),
    h1 { Path := "/health/", RequestURI := "/health/" } { Path := "/", RequestURI := "/" }
      (by decide) rfl (by decide) (by decide) rfl (by decide),
    h1 { Method := "HEAD", Path := "/healthz", RequestURI := "/healthz" }
      { Method := "HEAD", Path := "/", RequestURI := "/" }
      (by decide) rfl (by decide) (by decide) rfl (by decide)⟩

/-- C4: with PORT unset or empty the address passed to listen is `:2222`;
with a non-empty value `v` it is `:` followed by `v`, unchanged.  Listen is
called once. -/
theorem listen_address (os : OS) :
    ∃ run, main os = .ok run ∧
      (os.environ "PORT" = none ∨ os.environ "PORT" = some "" → listens run.trace = [":2222"]) ∧
      (∀ v, os.environ "PORT" = some v → v ≠ "" → listens run.trace = [":" ++ v]) := by
  obtain ⟨run, steps, hm, -, hport, -, -, hall, htrace⟩ := main_run os
  have hsteps : listens steps = [] :=
    listens_served steps (fun s hs => by
      obtain ⟨r, o, h, -⟩ := hall s hs
      exact ⟨r, o, h⟩)
  have hl : listens run.trace = [":" ++ run.port] := by
    rw [htrace]
    cases os.Listen (":" ++ run.port) with
    | some err => rfl
    | none =>
      cases os.acceptErr with
      | some err =>
        show listens ([Step.Log _, Step.Listen _] ++ (steps ++ [Step.Log err, Step.Exit 1])) = _
        rw [listens_append, listens_append, hsteps]
        rfl
      | none =>
        show listens ([Step.Log _, Step.Listen _] ++ (steps ++ [])) = _
        rw [listens_append, listens_append, hsteps]
        rfl
  refine ⟨run, hm, ?_, ?_⟩
  · intro h
    have : os.Getenv "PORT" = "" := by
      rcases h with h | h <;> simp [OS.Getenv, h]
    rw [hl, hport, if_pos this]
    rfl
  · intro v hv hne
    have : os.Getenv "PORT" = v := by simp [OS.Getenv, hv]
    rw [hl, hport, this, if_neg hne]

/-- Witness of `listen_address`: PORT set to 8080. -/
theorem listen_address_witness :
    ∃ run, main ⟨("box", none), fun k => if k = "PORT" then some "8080" else none,
        fun _ => none, [], none⟩ = .ok run ∧ listens run.trace = [":8080"] := by
  obtain ⟨run, h, -, h2⟩ := listen_address
    ⟨("box", none), fun k => if k = "PORT" then some "8080" else none, fun _ => none, [], none⟩
  exact ⟨run, h, h2 "8080" rfl (by decide)⟩

/-- C5: a failing host name lookup does not end the run: the host name is
then `unknown`, the handlers are registered with it and listen is called;
a lookup that succeeds with `h` makes `h` the host name. -/
theorem hostname_fallback (os : OS) :
    ∃ run, main os = .ok run ∧
      (∀ e, os.Hostname.2 = some e → run.hostname = "unknown") ∧
      (os.Hostname.2 = none → run.hostname = os.Hostname.1) ∧
      Step.Listen (":" ++ run.port) ∈ run.trace ∧
      (∀ r effects, run.DefaultServeMux.ServeHTTP r = .ok (.handled "/" effects) →
        rootHandler run.hostname r [] = .ok effects) := by
  obtain ⟨run, steps, hm, hhost, -, hmux, -, -, htrace⟩ := main_run os
  refine ⟨run, hm, ?_, ?_, ?_, ?_⟩
  · intro e he
    rw [hhost, he]
    rfl
  · intro he
    rw [hhost, he]
    rfl
  · rw [htrace]
    simp
  · intro r effects h
    rw [hmux] at h
    rcases registered_handled_inv run.hostname r "/" effects h with ⟨-, h2⟩ | ⟨h1, -⟩
    · exact h2
    · exact absurd h1 (by decide)

/-- Witness of `hostname_fallback`: the lookup fails. -/
theorem hostname_fallback_witness :
    ∃ run, main ⟨("", some "hostname: lookup failed"), fun _ => none, fun _ => none, [], none⟩
        = .ok run ∧ run.hostname = "unknown" := by
  obtain ⟨run, h, h1, -, -, -⟩ := hostname_fallback
    ⟨("", some "hostname: lookup failed"), fun _ => none, fun _ => none, [], none⟩
  exact ⟨run, h, h1 "hostname: lookup failed" rfl⟩

/-- C6: when listen fails, the run consists of the start-up line, the one
call of listen, the log line with the error and the exit with status 1:
no exchange takes place, listen is not called again, no other port is
tried.  (Also when the server stops later with an error, that error is
logged, the exit status is 1 and listen has been called once.) -/
theorem listen_failure_fatal (os : OS) :
    ∃ run, main os = .ok run ∧
      (∀ e, os.Listen (":" ++ run.port) = some e →
        run.trace = [ .Log ("Starting server on port " ++ run.port), .Listen (":" ++ run.port),
                      .Log e, .Exit 1 ] ∧
        served run.trace = [] ∧ listens run.trace = [":" ++ run.port]) ∧
      (∀ e, os.Listen (":" ++ run.port) = none → os.acceptErr = some e →
        ∃ steps, run.trace = steps ++ [.Log e, .Exit 1] ∧
          listens run.trace = [":" ++ run.port]) := by
  obtain ⟨run, steps, hm, -, -, -, -, hall, htrace⟩ := main_run os
  refine ⟨run, hm, ?_, ?_⟩
  · intro e he
    rw [he] at htrace
    rw [htrace]
    exact ⟨rfl, rfl, rfl⟩
  · intro e he ha
    rw [he, ha] at htrace
    have hsteps : listens steps = [] :=
      listens_served steps (fun s hs => by
        obtain ⟨r, o, h, -⟩ := hall s hs
        exact ⟨r, o, h⟩)
    refine ⟨Step.Log ("Starting server on port " ++ run.port) :: Step.Listen (":" ++ run.port)
      :: steps, ?_, ?_⟩
    · rw [htrace]
      rfl
    · rw [htrace]
      show listens ([Step.Log _, Step.Listen _] ++ (steps ++ [Step.Log e, Step.Exit 1])) = _
      rw [listens_append, listens_append, hsteps]
      rfl

/-- Witness of `listen_failure_fatal`: the port is taken. -/
theorem listen_failure_fatal_witness :
    ∃ run, main ⟨("box", none), fun _ => none,
        fun _ => some "listen tcp :2222: bind: address already in use",
        [{ Path := "/" }], none⟩ = .ok run ∧
      run.trace = [ .Log ("Starting server on port " ++ run.port), .Listen (":" ++ run.port),
                    .Log "listen tcp :2222: bind: address already in use", .Exit 1 ] ∧
      served run.trace = [] ∧ listens run.trace = [":" ++ run.port] := by
  obtain ⟨run, h, h1, -⟩ := listen_failure_fatal
    ⟨("box", none), fun _ => none, fun _ => some "listen tcp :2222: bind: address already in use",
      [{ Path := "/" }], none⟩
  exact ⟨run, h, h1 "listen tcp :2222: bind: address already in use" rfl⟩

/-- C7: the root handler performs one write of the body and then hands one
line, `Request received from` with the remote address, to the logger; the
health handler sets the status, writes `OK` and then logs one line,
`Health check request received from` with the remote address.  Nothing
else is done, and what was done before is kept. -/
theorem request_logging (hostname : String) (r : Request) (t : List Effect) :
    (∃ body, rootHandler hostname r t
        = .ok (t ++ [.Write body, .Log ("Request received from " ++ r.RemoteAddr)]) ∧
      logged [.Write body, .Log ("Request received from " ++ r.RemoteAddr)]
        = ["Request received from " ++ r.RemoteAddr]) ∧
    healthHandler r t
        = .ok (t ++ [.WriteHeader 200, .Write "OK",
            .Log ("Health check request received from " ++ r.RemoteAddr)]) ∧
    logged [.WriteHeader 200, .Write "OK",
        .Log ("Health check request received from " ++ r.RemoteAddr)]
      = ["Health check request received from " ++ r.RemoteAddr] := by
  obtain ⟨body, -, h⟩ := rootHandler_eq hostname r t
  exact ⟨⟨body, h, rfl⟩, healthHandler_eq r t, rfl⟩

/-- C8: every run starts with the one line `Starting server on port` with
the resolved port, then calls listen; what follows are exchanges and, if
the server stops, the fatal end.  The start-up line is there whether or not
listen fails. -/
theorem startup_logging (os : OS) :
    ∃ run exchanges ending, main os = .ok run ∧
      run.port = (match os.environ "PORT" with
                  | none => "2222"
                  | some v => if v = "" then "2222" else v) ∧
      run.trace = .Log ("Starting server on port " ++ run.port) :: .Listen (":" ++ run.port) ::
        (exchanges ++ ending) ∧
      (∀ s ∈ exchanges, ∃ r o, s = Step.Served r o) ∧
      (ending = [] ∨ ∃ e, ending = [.Log e, .Exit 1]) := by
  obtain ⟨run, steps, hm, -, hport, -, -, hall, htrace⟩ := main_run os
  have hp : run.port = (match os.environ "PORT" with
      | none => "2222"
      | some v => if v = "" then "2222" else v) := by
    rw [hport]
    unfold OS.Getenv
    cases os.environ "PORT" with
    | none => rfl
    | some v => rfl
  cases hl : os.Listen (":" ++ run.port) with
  | some err =>
    refine ⟨run, [], [.Log err, .Exit 1], hm, hp, ?_, by simp, Or.inr ⟨err, rfl⟩⟩
    rw [htrace, hl]
    rfl
  | none =>
    cases ha : os.acceptErr with
    | some err =>
      refine ⟨run, steps, [.Log err, .Exit 1], hm, hp, ?_, ?_, Or.inr ⟨err, rfl⟩⟩
      · rw [htrace, hl, ha]
      · intro s hs
        obtain ⟨r, o, h, -⟩ := hall s hs
        exact ⟨r, o, h⟩
    | none =>
      refine ⟨run, steps, [], hm, hp, ?_, ?_, Or.inl rfl⟩
      · rw [htrace, hl, ha]
      · intro s hs
        obtain ⟨r, o, h, -⟩ := hall s hs
        exact ⟨r, o, h⟩


/-- C9 as stated fails on the method: a GET and a HEAD for `/` are answered
by the same handler, which writes the same status and body for both, but
the response sent to the HEAD has no body. -/
theorem stateless_method_counterexample :
    (main ⟨("box", none), fun _ => none, fun _ => none,
        [{ Method := "GET" }, { Method := "HEAD" }], none⟩).map (fun run => run.trace)
      = .ok [ .Log "Starting server on port 2222", .Listen ":2222",
              .Served { Method := "GET" }
                (.handled "/"
                  [ .Write "Hello from Go Web App Demo for DockerHub and GHCR box\n",
                    .Log "Request received from " ]),
              .Served { Method := "HEAD" }
                (.handled "/"
                  [ .Write "Hello from Go Web App Demo for DockerHub and GHCR box\n",
                    .Log "Request received from " ]) ]
    ∧ sent { Method := "GET" }
        [ .Write "Hello from Go Web App Demo for DockerHub and GHCR box\n",
          .Log "Request received from " ]
        = ⟨200, "Hello from Go Web App Demo for DockerHub and GHCR box\n"⟩
    ∧ sent { Method := "HEAD" }
        [ .Write "Hello from Go Web App Demo for DockerHub and GHCR box\n",
          .Log "Request received from " ]
        = ⟨200, ""⟩
    ∧ sent { Method := "GET" }
        [ .Write "Hello from Go Web App Demo for DockerHub and GHCR box\n",
          .Log "Request received from " ]
      ≠ sent { Method := "HEAD" }
        [ .Write "Hello from Go Web App Demo for DockerHub and GHCR box\n",
          .Log "Request received from " ] :=
  ⟨rfl, rfl, rfl, by decide⟩

/-- C9 (amended): the handlers keep no state.  For two requests answered by
the same handler, whatever their method, header, body and remote address,
the handler writes the same status and body and the responses sent have the
same status; the responses sent are the same when both requests are HEAD or
neither is.  What a handler does is the same after anything done before; a
request is answered in the same way after any requests and before any
others; and the host name and the port of the run do not depend on the
requests that are handled. -/
theorem handlers_stateless (os : OS) :
    ∃ run, main os = .ok run ∧
      (∀ (r1 r2 : Request) (pat : String) (e1 e2 : List Effect),
          run.DefaultServeMux.ServeHTTP r1 = .ok (.handled pat e1) →
          run.DefaultServeMux.ServeHTTP r2 = .ok (.handled pat e2) →
          response e1 = response e2 ∧
          (sent r1 e1).status = (sent r2 e2).status ∧
          ((r1.Method = "HEAD" ↔ r2.Method = "HEAD") → sent r1 e1 = sent r2 e2)) ∧
      (∀ (r : Request) (pat : String) (e : List Effect),
          run.DefaultServeMux.ServeHTTP r = .ok (.handled pat e) →
          ∀ t : List Effect,
            (pat = "/" → rootHandler run.hostname r t = .ok (t ++ e)) ∧
            (pat = "/health" → healthHandler r t = .ok (t ++ e))) ∧
      (∀ (before : List Request) (r : Request) (after : List Request),
          ∃ sb o sa, serveAll run.DefaultServeMux (before ++ r :: after)
              = .ok (sb ++ Step.Served r o :: sa) ∧
            sb.length = before.length ∧ serverHandler run.DefaultServeMux r = .ok o) ∧
      (∀ rs : List Request, ∃ run2, main { os with requests := rs } = .ok run2 ∧
          run2.hostname = run.hostname ∧ run2.port = run.port) := by
  obtain ⟨run, steps, hm, hhost, hport, hmux, -, -, -⟩ := main_run os
  refine ⟨run, hm, ?_, ?_, ?_, ?_⟩
  · intro r1 r2 pat e1 e2 h1 h2
    rw [hmux] at h1 h2
    obtain ⟨b1, hb1, hr1⟩ := rootHandler_eq run.hostname r1 []
    obtain ⟨b2, hb2, hr2⟩ := rootHandler_eq run.hostname r2 []
    have hbb : b1 = b2 := by
      rw [hb1] at hb2
      injection hb2
    rcases registered_handled_inv run.hostname r1 pat e1 h1 with ⟨p1, q1⟩ | ⟨p1, q1⟩
    · rcases registered_handled_inv run.hostname r2 pat e2 h2 with ⟨p2, q2⟩ | ⟨p2, q2⟩
      · rw [hr1] at q1
        rw [hr2] at q2
        injection q1 with q1
        injection q2 with q2
        rw [← q1, ← q2, List.nil_append, List.nil_append, response_write_log,
          response_write_log, sent_write_log, sent_write_log, hbb]
        refine ⟨rfl, rfl, ?_⟩
        intro hhead
        by_cases h : r1.Method = "HEAD"
        · rw [if_pos h, if_pos (hhead.1 h)]
        · rw [if_neg h, if_neg (fun h0 => h (hhead.2 h0))]
      · rw [p1] at p2
        exact absurd p2 (by decide)
    · rcases registered_handled_inv run.hostname r2 pat e2 h2 with ⟨p2, q2⟩ | ⟨p2, q2⟩
      · rw [p1] at p2
        exact absurd p2 (by decide)
      · rw [healthHandler_eq] at q1 q2
        injection q1 with q1
        injection q2 with q2
        rw [← q1, ← q2, List.nil_append, List.nil_append, response_header_write_log,
          response_header_write_log, sent_header_write_log, sent_header_write_log]
        refine ⟨rfl, rfl, ?_⟩
        intro hhead
        by_cases h : r1.Method = "HEAD"
        · rw [if_pos h, if_pos (hhead.1 h)]
        · rw [if_neg h, if_neg (fun h0 => h (hhead.2 h0))]
  · intro r pat e h t
    rw [hmux] at h
    rcases registered_handled_inv run.hostname r pat e h with ⟨p1, q1⟩ | ⟨p1, q1⟩
    · constructor
      · intro _
        obtain ⟨b, hb, hr⟩ := rootHandler_eq run.hostname r []
        obtain ⟨b2, hb2, hr2⟩ := rootHandler_eq run.hostname r t
        rw [hr] at q1
        injection q1 with q1
        rw [hb] at hb2
        injection hb2 with hb2
        rw [hr2, ← q1, ← hb2]
        rfl
      · intro p2
        rw [p1] at p2
        exact absurd p2 (by decide)
    · constructor
      · intro p2
        rw [p1] at p2
        exact absurd p2 (by decide)
      · intro _
        rw [healthHandler_eq] at q1
        injection q1 with q1
        rw [healthHandler_eq, ← q1]
        rfl
  · intro before r after
    rw [hmux]
    exact registered_serveAll_split run.hostname before r after
  · intro rs
    obtain ⟨run2, steps2, hm2, hhost2, hport2, -, -, -, -⟩ := main_run { os with requests := rs }
    exact ⟨run2, hm2, by rw [hhost2, hhost], by rw [hport2, hport]; rfl⟩

/-- Witness of `handlers_stateless`: a GET and a POST from different
addresses to paths that both fall to the root handler get the same
response. -/
theorem handlers_stateless_witness :
    ∃ run, main ⟨("box", none), fun _ => none, fun _ => none, [], none⟩ = .ok run ∧
      sent { RemoteAddr := "10.0.0.7:5000" }
          [ .Write "Hello from Go Web App Demo for DockerHub and GHCR box\n",
            .Log "Request received from 10.0.0.7:5000" ]
        = sent ⟨"POST", "", "/foo", "/foo", "10.0.0.9:6000", [("X-Test", "1")], "data"⟩
            [ .Write "Hello from Go Web App Demo for DockerHub and GHCR box\n",
              .Log "Request received from 10.0.0.9:6000" ] := by
  obtain ⟨run, h, h1, -, -, -⟩ :=
    handlers_stateless ⟨("box", none), fun _ => none, fun _ => none, [], none⟩
  have h0 : main ⟨("box", none), fun _ => none, fun _ => none, [], none⟩
      = .ok ⟨"box", "2222", registered "box",
          [.Log "Starting server on port 2222", .Listen ":2222"]⟩ :=
    rfl
  rw [h0] at h
  injection h with h
  subst h
  exact ⟨_, h0, (h1 { RemoteAddr := "10.0.0.7:5000" }
    { Method := "POST", Path := "/foo", RequestURI := "/foo", RemoteAddr := "10.0.0.9:6000",
      Header := [("X-Test", "1")], Body := "data" } "/" _ _ rfl rfl).2.2 (by decide)⟩

/-- C10: for a host name without a percent sign, formatting the greeting
that was built as a format without operands gives the greeting back, so the
body of the root handler is the greeting; for the host name `a%d` the body
differs from the greeting. -/
theorem root_body_format_identity :
    (∀ (hostname : String) (r : Request), '%' ∉ hostname.data →
        Fprintf ("Hello from Go Web App Demo for DockerHub and GHCR " ++ hostname ++ "\n") []
          = .ok ("Hello from Go Web App Demo for DockerHub and GHCR " ++ hostname ++ "\n") ∧
        ∃ effects, rootHandler hostname r [] = .ok effects ∧
          response effects
            = ⟨200, "Hello from Go Web App Demo for DockerHub and GHCR " ++ hostname ++ "\n"⟩) ∧
    (∀ r : Request, ∃ effects, rootHandler "a%d" r [] = .ok effects ∧
        (response effects).body
          ≠ "Hello from Go Web App Demo for DockerHub and GHCR " ++ "a%d" ++ "\n") := by
  constructor
  · intro hostname r hp
    have hfmt : Fprintf
        ("Hello from Go Web App Demo for DockerHub and GHCR " ++ hostname ++ "\n") []
          = .ok ("Hello from Go Web App Demo for DockerHub and GHCR " ++ hostname ++ "\n") := by
      apply Sprintf_plain
      simp only [String.data_append, List.mem_append, not_or]
      exact ⟨⟨by decide, hp⟩, by decide⟩
    obtain ⟨body, hb, hr⟩ := rootHandler_eq hostname r []
    rw [hfmt] at hb
    injection hb with hb
    subst hb
    exact ⟨hfmt, _, hr, response_write_log _ _⟩
  · intro r
    obtain ⟨body, hb, hr⟩ := rootHandler_eq "a%d" r []
    have hfmt : Fprintf ("Hello from Go Web App Demo for DockerHub and GHCR " ++ "a%d" ++ "\n") []
        = .ok "Hello from Go Web App Demo for DockerHub and GHCR a%!d(MISSING)\n" := rfl
    rw [hfmt] at hb
    injection hb with hb
    subst hb
    refine ⟨_, hr, ?_⟩
    rw [List.nil_append, response_write_log]
    decide

/-- Witness of `root_body_format_identity`: the host name `box`. -/
theorem root_body_format_identity_witness :
    Fprintf ("Hello from Go Web App Demo for DockerHub and GHCR " ++ "box" ++ "\n") []
        = .ok ("Hello from Go Web App Demo for DockerHub and GHCR " ++ "box" ++ "\n") ∧
      ∃ effects, rootHandler "box" { RemoteAddr := "10.0.0.7:5000" } [] = .ok effects ∧
        response effects
          = ⟨200, "Hello from Go Web App Demo for DockerHub and GHCR " ++ "box" ++ "\n"⟩ :=
  root_body_format_identity.1 "box" { RemoteAddr := "10.0.0.7:5000" } (by decide)

end GoWeb

